import Mathlib

/-!
WebPositive bookmark bar.

A shallow embedding of `BookmarkBar` (src/BookmarkBar.cpp, src/BookmarkBar.h):
the identity index `fItemsMap`, the inline row of the menu bar, the overflow
("more") menu, the layout recomputation `FrameResized`, the add-if-absent path
`_AddItem`, the message handler `MessageReceived`, the pointer press
`MouseDown`, `AttachedToWindow` and the loader `_LoadBookmarksThreadEntry`;
and of `BrowsingHistoryItem::operator<` (src/BrowsingHistory.cpp).

The Haiku toolkit (`BMenu`, `BMenuBar`, `BEntry`) is not part of the repository.
Its observable behaviour is represented as follows.

* A menu is the list of its items, in display order.  The overflow menu, when
  it is an item of the bar, is the last item of the bar; the bookmark entries of
  the bar are kept in `items` and the presence of the overflow menu in
  `overflowMounted` (what `IndexOf(fOverflowMenu) != B_ERROR` tests).
* Every entry has a frame width.  The bar lays its items out from left to
  right starting at 0, so the right edge of item `i` is the sum of the widths of
  items `0..i`; `Frame().Width()` of an entry is its width.
* Coordinates are integers.
* Filesystem queries are answered by a `Platform` record.
* A menu entry is identified by its address; `new` hands out `nextAddr`.
-/

namespace WebPositive

/-- Identity of a filesystem node (`ino_t`). -/
abbrev ino_t := Int

/-- Location of a filesystem entry (`entry_ref`): device, directory and leaf name. -/
structure entry_ref where
  device : Int
  directory : Int
  name : String
deriving DecidableEq, Repr

/-- The constant `kFolderMsg = 'fold'`. -/
def kFolderMsg : Nat := 0x666f6c64

/-- The constant `B_REFS_RECEIVED = 'RRCV'`. -/
def B_REFS_RECEIVED : Nat := 0x52524356

/-- Action message of a bookmark entry: its `what` code and its `"refs"` field. -/
structure BMessage where
  what : Nat
  refs : entry_ref
deriving DecidableEq, Repr

/-- One `IconMenuItem`: the address of the object, its label, its action message
and the width of its frame. -/
structure IconMenuItem where
  addr : Nat
  label : String
  message : BMessage
  width : Nat
deriving DecidableEq, Repr

/-- Answers of the platform to the queries the bookmark bar makes. -/
structure Platform where
  /-- `BEntry(&ref).InitCheck() == B_OK` -/
  initCheck : entry_ref → Bool
  /-- `BEntry(&ref, true).IsDirectory()` -/
  isDirectory : entry_ref → Bool
  /-- `BEntry(&ref).Remove() == B_OK` -/
  removeEntry : entry_ref → Bool
  /-- `BEntry(&ref).Rename(name) == B_OK` -/
  renameEntry : entry_ref → String → Bool
  /-- Frame width the menu bar gives to a new entry with this label. -/
  itemWidth : String → Nat

/-- Alerts shown to the user by the delete action. -/
inductive Alert where
  | deleteFailed (ref : entry_ref)
  | removeFromBarFailed (ref : entry_ref)
deriving DecidableEq, Repr

/-- The map `std::map<ino_t, IconMenuItem*>`: `none` when the key has no entry,
`some none` when the entry holds `NULL`, `some (some a)` when it holds the
item at address `a`. -/
abbrev ItemsMap := ino_t → Option (Option Nat)

namespace ItemsMap

/-- The member `std::map::count`. -/
def count (m : ItemsMap) (k : ino_t) : Nat :=
  if (m k).isSome then 1 else 0

/-- The member `std::map::operator[]` used as an rvalue: the value stored for `k`,
after inserting a `NULL` entry when `k` has none. -/
def index (m : ItemsMap) (k : ino_t) : Option Nat × ItemsMap :=
  match m k with
  | some v => (v, m)
  | none => (none, Function.update m k (some none))

/-- The assignment `m[k] = v`. -/
def assign (m : ItemsMap) (k : ino_t) (v : Option Nat) : ItemsMap :=
  Function.update m k (some v)

/-- The member `std::map::erase`. -/
def erase (m : ItemsMap) (k : ino_t) : ItemsMap :=
  Function.update m k none

end ItemsMap

/-- State of a `BookmarkBar`. -/
structure BookmarkBar where
  /-- Bookmark entries of the menu bar, left to right. -/
  items : List IconMenuItem
  /-- Whether `fOverflowMenu` is an item of the bar (then it is the last one). -/
  overflowMounted : Bool
  /-- Frame width of the bar item that shows `fOverflowMenu`. -/
  overflowItemWidth : Nat
  /-- Entries of `fOverflowMenu`, top to bottom. -/
  overflow : List IconMenuItem
  fItemsMap : ItemsMap
  fOverflowMenuAdded : Bool
  fSelectedItemIndex : Int
  fLoadThreadId : Int
  /-- The value of `Bounds().Width()`. -/
  boundsWidth : Int
  /-- Address the next `new IconMenuItem` returns. -/
  nextAddr : Nat
  /-- Alerts shown so far, latest first. -/
  alerts : List Alert

namespace BookmarkBar

/-- The call `CountItems()` on the bar. -/
def CountItems (s : BookmarkBar) : Nat :=
  s.items.length + (if s.overflowMounted then 1 else 0)

/-- Right edge of the frame of the `i`-th of `items` in the bar. -/
def frameRight (items : List IconMenuItem) (i : Nat) : Int :=
  (((items.take (i + 1)).map (fun it => it.width)).sum : Nat)

/-- The value `ItemAt(i)->Frame().right` on a bar holding `items` and, when
`mounted`, the overflow menu after them; `none` when `ItemAt(i)` is `NULL`. -/
def itemFrameRight (items : List IconMenuItem) (mounted : Bool) (moreW : Nat)
    (i : Nat) : Option Int :=
  if i < items.length then some (frameRight items i)
  else if i = items.length ∧ mounted = true then
    some (frameRight items i + (moreW : Int))
  else none

/-- The call `BMenu::RemoveItem(BMenuItem*)`: removes the item at that address;
nothing happens for `NULL` or for an item that is not in the menu. -/
def removeItemPtr (p : Option Nat) (l : List IconMenuItem) : List IconMenuItem :=
  match p with
  | none => l
  | some a => l.eraseP (fun it => it.addr == a)

/-- The calls `SetLabel` and `SetMessage` made through a pointer: the object at
that address gets the label and the message, wherever it is displayed. -/
def setLabelMessage (a : Nat) (label : String) (msg : BMessage)
    (l : List IconMenuItem) : List IconMenuItem :=
  l.map (fun it => if it.addr = a then { it with label := label, message := msg } else it)

/-- First loop of `FrameResized`: `n` is `count - i`.  Returns `i` and
`rightmost` at the exit of the loop. -/
def scanLoop (items : List IconMenuItem) (limit : Int) : Nat → Nat → Int → Nat × Int
  | 0, i, rightmost => (i, rightmost)
  | n + 1, i, rightmost =>
    if frameRight items i > limit then (i, rightmost)
    else scanLoop items limit n (i + 1) (frameRight items i)

/-- The pull-back loop of `FrameResized`, by recursion on the entries of the
overflow menu.  Arguments after the overflow entries: bar entries, `i`,
`rightmost`, `overflowMenuWidth`.  Returns the bar entries and the overflow
entries at the exit, `none` when `ItemAt(i)` is `NULL`. -/
def pullBackLoop (width : Int) (mounted : Bool) (moreW : Nat) :
    List IconMenuItem → List IconMenuItem → Nat → Int → Int →
      Option (List IconMenuItem × List IconMenuItem)
  | [], items, _, _, _ => some (items, [])
  | extraItem :: rest, items, i, rightmost, overflowMenuWidth =>
    if (extraItem.width : Int) + rightmost > width - overflowMenuWidth then
      some (items, extraItem :: rest)
    else
      match itemFrameRight (items.insertIdx i extraItem) mounted moreW (i + 1) with
      | none => none
      | some right =>
        pullBackLoop width mounted moreW rest (items.insertIdx i extraItem) (i + 1) right
          (if rest.length ≤ 1 then 0 else overflowMenuWidth)

/-- The spill loop of `FrameResized`: `n` iterations are left and `j` is the
loop index, going down. -/
def spillLoop : Nat → Nat → List IconMenuItem → List IconMenuItem →
    List IconMenuItem × List IconMenuItem
  | 0, _, items, overflow => (items, overflow)
  | n + 1, j, items, overflow =>
    match items[j]? with
    | none => spillLoop n (j - 1) items overflow
    | some it => spillLoop n (j - 1) (items.eraseIdx j) (it :: overflow)

/-- The method `BookmarkBar::FrameResized(width, height)`. -/
def FrameResized (width : Int) (s : BookmarkBar) : Option BookmarkBar :=
  let count : Nat := s.CountItems - (if s.overflowMounted then 1 else 0)
  let overflowMenuWidth : Int :=
    if s.overflowMounted = true ∧ s.overflow.length > 1 then 32 else 0
  let r := scanLoop s.items (width - overflowMenuWidth) count 0 0
  if r.1 = count then
    match pullBackLoop width s.overflowMounted s.overflowItemWidth
        s.overflow s.items r.1 r.2 overflowMenuWidth with
    | none => none
    | some (items1, overflow1) =>
      if overflow1.length = 0 then
        some { s with items := items1, overflow := overflow1,
                      overflowMounted := false, fOverflowMenuAdded := false }
      else
        some { s with items := items1, overflow := overflow1 }
  else
    let q := spillLoop (count - r.1) (count - 1) s.items s.overflow
    if s.overflowMounted = false then
      some { s with items := q.1, overflow := q.2,
                    overflowMounted := true, fOverflowMenuAdded := true }
    else
      some { s with items := q.1, overflow := q.2 }

/-- The method `BookmarkBar::_AddItem(inode, ref)`. -/
def _AddItem (pf : Platform) (inode : ino_t) (ref : entry_ref) (s : BookmarkBar) :
    Option BookmarkBar :=
  if s.fItemsMap.count inode ≠ 0 then some s
  else if pf.initCheck ref = false then some s
  else
    let item : IconMenuItem :=
      { addr := s.nextAddr, label := ref.name,
        message := { what := if pf.isDirectory ref then kFolderMsg else B_REFS_RECEIVED,
                     refs := ref },
        width := pf.itemWidth ref.name }
    let count : Nat := s.CountItems - (if s.overflowMounted then 1 else 0)
    let s1 : BookmarkBar :=
      { s with items := s.items.insertIdx count item,
               fItemsMap := s.fItemsMap.assign inode (some item.addr),
               nextAddr := s.nextAddr + 1 }
    FrameResized s1.boundsWidth s1

/-- Node monitor notifications the bar handles (`opcode` of `B_NODE_MONITOR`),
with the message fields the handler reads. -/
inductive NodeMonitorEvent where
  | entryCreated (node : ino_t) (device : Int) (directory : Int) (name : String)
  | entryMoved (node : ino_t) (device : Int) (fromDirectory : Int) (toDirectory : Int)
      (name : String)
  | entryRemoved (node : ino_t)

/-- Messages handled by `BookmarkBar::MessageReceived`. -/
inductive Message where
  | addBookmarkItems (pairs : List (ino_t × entry_ref))
  | bookmarksLoaded
  | nodeMonitor (ev : NodeMonitorEvent)
  | deleteMsg
  | renameBookmarkMsg (text : String) (item : Option Nat)

/-- The loop of the `MSG_ADD_BOOKMARK_ITEMS` case: `_AddItem` for every pair. -/
def addItems (pf : Platform) : List (ino_t × entry_ref) → BookmarkBar → Option BookmarkBar
  | [], s => some s
  | (node, ref) :: rest, s =>
    match _AddItem pf node ref s with
    | none => none
    | some s1 => addItems pf rest s1

/-- The `B_ENTRY_CREATED` case. -/
def entryCreated (pf : Platform) (inode : ino_t) (device directory : Int) (name : String)
    (s : BookmarkBar) : Option BookmarkBar :=
  let ref : entry_ref := { device := device, directory := directory, name := name }
  if pf.initCheck ref = true then _AddItem pf inode ref s else some s

/-- The `B_ENTRY_REMOVED` case. -/
def entryRemoved (inode : ino_t) (s : BookmarkBar) : Option BookmarkBar :=
  let r := s.fItemsMap.index inode
  let s1 : BookmarkBar :=
    { s with items := removeItemPtr r.1 s.items,
             overflow := removeItemPtr r.1 s.overflow,
             fItemsMap := r.2.erase inode }
  FrameResized s1.boundsWidth s1

/-- The `B_ENTRY_MOVED` case, which falls through to the `B_ENTRY_REMOVED` case
when the entry left the directory. -/
def entryMoved (pf : Platform) (inode : ino_t) (device fromDir toDir : Int) (name : String)
    (s : BookmarkBar) : Option BookmarkBar :=
  let ref : entry_ref := { device := device, directory := toDir, name := name }
  let r := s.fItemsMap.index inode
  match r.1 with
  | none => _AddItem pf inode ref { s with fItemsMap := r.2 }
  | some a =>
    if fromDir = toDir then
      let itemMessage : BMessage :=
        { what := if pf.isDirectory ref then kFolderMsg else B_REFS_RECEIVED, refs := ref }
      some { s with items := setLabelMessage a name itemMessage s.items,
                    overflow := setLabelMessage a name itemMessage s.overflow,
                    fItemsMap := r.2 }
    else entryRemoved inode { s with fItemsMap := r.2 }

/-- The `kDeleteMsg` case; `none` when the selected item is the overflow menu,
whose `Message()` is `NULL`. -/
def deleteSelected (pf : Platform) (s : BookmarkBar) : Option BookmarkBar :=
  if 0 ≤ s.fSelectedItemIndex ∧ s.fSelectedItemIndex < (s.CountItems : Int) then
    match s.items[s.fSelectedItemIndex.toNat]? with
    | none => none
    | some selectedItem =>
      if pf.removeEntry selectedItem.message.refs = false then
        some { s with alerts := Alert.deleteFailed selectedItem.message.refs :: s.alerts }
      else
        some { s with items := s.items.eraseIdx s.fSelectedItemIndex.toNat }
  else some s

/-- The call `SetLabel` made through a pointer: the object at that address gets
the label, wherever it is displayed. -/
def setLabel (a : Nat) (label : String) (l : List IconMenuItem) : List IconMenuItem :=
  l.map (fun it => if it.addr = a then { it with label := label } else it)

/-- The `kRenameBookmarkMsg` case: `text` is the `"text"` field and `item` the
`"item"` pointer of the message.  The pointer is not looked up in the bar: the
code calls `Rename` on the reference of the object and `SetLabel` on the
object, and the label shows wherever the object is displayed.  The result of
`BEntry::Rename` is computed and not looked at; for an object that is not on
display its reference is not part of the state.  `none` when the pointer is
`NULL`. -/
def renameBookmark (pf : Platform) (text : String) (item : Option Nat) (s : BookmarkBar) :
    Option BookmarkBar :=
  match item with
  | none => none
  | some a =>
    let _renamed : Option Bool :=
      ((s.items ++ s.overflow).find? (fun it => it.addr == a)).map
        (fun selectedItem => pf.renameEntry selectedItem.message.refs text)
    some { s with items := setLabel a text s.items,
                  overflow := setLabel a text s.overflow }

/-- The method `BookmarkBar::MessageReceived`. -/
def MessageReceived (pf : Platform) (message : Message) (s : BookmarkBar) :
    Option BookmarkBar :=
  match message with
  | .addBookmarkItems pairs =>
    match addItems pf pairs s with
    | none => none
    | some s1 => FrameResized s1.boundsWidth s1
  | .bookmarksLoaded => FrameResized s.boundsWidth s
  | .nodeMonitor (.entryCreated node device directory name) =>
    entryCreated pf node device directory name s
  | .nodeMonitor (.entryMoved node device fromDir toDir name) =>
    entryMoved pf node device fromDir toDir name s
  | .nodeMonitor (.entryRemoved node) => entryRemoved node s
  | .deleteMsg => deleteSelected pf s
  | .renameBookmarkMsg text item => renameBookmark pf text item s

/-- Entries on display: the inline row followed by the overflow menu. -/
def displayed (s : BookmarkBar) : List IconMenuItem :=
  s.items ++ s.overflow

/-- Sum of the frame widths of a list of entries. -/
def totalWidth (l : List IconMenuItem) : Nat :=
  (l.map (fun it => it.width)).sum

/-- Width the layout keeps free for the overflow menu: 32 when it is in the bar
and holds more than one entry. -/
def reserve (s : BookmarkBar) : Int :=
  if s.overflowMounted = true ∧ s.overflow.length > 1 then 32 else 0

/-- The constant `B_NO_THREAD`. -/
def B_NO_THREAD : Int := -1

/-- The status `B_OK`. -/
def B_OK : Int := 0

/-- The status `B_ERROR`. -/
def B_ERROR : Int := -1

/-- The method `BookmarkBar::AttachedToWindow`; `spawned` is the value
`spawn_thread` returns.  The result is the state and the loader threads the
call created. -/
def AttachedToWindow (spawned : Int) (s : BookmarkBar) : BookmarkBar × List Int :=
  let s1 : BookmarkBar := { s with fLoadThreadId := spawned }
  if s1.fLoadThreadId < 0 then ({ s1 with fLoadThreadId := B_NO_THREAD }, [])
  else (s1, [spawned])

/-- One entry of the watched directory as `GetNextEntry` delivers it: its kind,
and what `GetRef` and `GetNodeRef` give (`none` when they do not return `B_OK`). -/
structure DirEntry where
  isFile : Bool
  isDirectory : Bool
  isSymLink : Bool
  ref : Option entry_ref
  node : Option ino_t

/-- The constant `BATCH_SIZE` of the loader. -/
def BATCH_SIZE : Nat := 10

/-- The `while` loop of `_LoadBookmarksThreadEntry` over the entries still to
come.  Loop state: the messages sent so far, the pairs in `batchMessage`, and
`itemsInBatch`. -/
def loadLoop : List DirEntry → List Message → List (ino_t × entry_ref) → Nat →
    List Message × List (ino_t × entry_ref) × Nat
  | [], sent, batch, itemsInBatch => (sent, batch, itemsInBatch)
  | e :: rest, sent, batch, itemsInBatch =>
    if (!e.isFile && !e.isDirectory && !e.isSymLink) = true then
      loadLoop rest sent batch itemsInBatch
    else
      match e.ref, e.node with
      | some ref, some node =>
        if itemsInBatch + 1 ≥ BATCH_SIZE then
          loadLoop rest (sent ++ [Message.addBookmarkItems (batch ++ [(node, ref)])]) [] 0
        else
          loadLoop rest sent (batch ++ [(node, ref)]) (itemsInBatch + 1)
      | _, _ => loadLoop rest sent batch itemsInBatch

/-- What a run of the loader leaves: the bar, the messages sent to it in order,
and the return value. -/
structure LoadResult where
  bar : BookmarkBar
  sent : List Message
  status : Int

/-- The function `BookmarkBar::_LoadBookmarksThreadEntry`; `dir` is `none` when
`BDirectory::InitCheck()` is not `B_OK`, otherwise the enumeration of the
directory. -/
def _LoadBookmarksThreadEntry (dir : Option (List DirEntry)) (bar : BookmarkBar) :
    LoadResult :=
  match dir with
  | none =>
    { bar := { bar with fLoadThreadId := B_NO_THREAD }, sent := [], status := B_ERROR }
  | some entries =>
    let r := loadLoop entries [] [] 0
    let sent1 : List Message :=
      if r.2.2 > 0 then r.1 ++ [Message.addBookmarkItems r.2.1] else r.1
    { bar := { bar with fLoadThreadId := B_NO_THREAD },
      sent := sent1 ++ [Message.bookmarksLoaded], status := B_OK }

/-- The pair the batching property counts for one entry: the entry is a file, a
directory or a symlink and its reference and node both resolve. -/
def loadablePair (e : DirEntry) : Option (ino_t × entry_ref) :=
  if (e.isFile || e.isDirectory || e.isSymLink) = true then
    match e.ref, e.node with
    | some ref, some node => some (node, ref)
    | _, _ => none
  else none

/-- The pairs the batching property speaks of: the (node, reference) pairs of
the entries that count, in enumeration order. -/
def loadable (entries : List DirEntry) : List (ino_t × entry_ref) :=
  entries.filterMap loadablePair

/-- A point of the view (`BPoint`). -/
structure BPoint where
  x : Int
  y : Int

/-- The constant `B_SECONDARY_MOUSE_BUTTON`. -/
def B_SECONDARY_MOUSE_BUTTON : Nat := 2

/-- Whether `ItemAt(i)->Frame().Contains(where)` on a bar of the given height:
the frame of item `i` reaches from the right edge of the item before it (0 for
the first) to its own right edge, and from 0 to `height`.  The overflow menu,
when mounted, is the item after the bookmark entries. -/
def frameContains (s : BookmarkBar) (height : Int) (i : Nat) (pt : BPoint) : Bool :=
  match itemFrameRight s.items s.overflowMounted s.overflowItemWidth i with
  | none => false
  | some right =>
    let left : Int := if i = 0 then 0 else frameRight s.items (i - 1)
    decide (left ≤ pt.x ∧ pt.x ≤ right ∧ 0 ≤ pt.y ∧ pt.y ≤ height)

/-- The `for` loop of `MouseDown`: `n` is `CountItems() - i`.  Returns the index
stored in `fSelectedItemIndex`, or `none` when no item was found. -/
def hitLoop (s : BookmarkBar) (height : Int) (pt : BPoint) : Nat → Nat → Option Nat
  | 0, _ => none
  | n + 1, i => if frameContains s height i pt = true then some i
    else hitLoop s height pt n (i + 1)

/-- The method `BookmarkBar::MouseDown`; `buttons` is the `"buttons"` field of
the current message (`none` when there is no current message or no such
field).  The result is the state and, when the context menu was popped up,
whether its first item was enabled.  `none` when the item found is the
overflow menu, whose `Message()` is `NULL`. -/
def MouseDown (height : Int) (buttons : Option Nat) (pt : BPoint) (s : BookmarkBar) :
    Option (BookmarkBar × Option Bool) :=
  let s0 : BookmarkBar := { s with fSelectedItemIndex := -1 }
  match buttons with
  | none => some (s0, none)
  | some b =>
    if b &&& B_SECONDARY_MOUSE_BUTTON ≠ 0 then
      match hitLoop s0 height pt s0.CountItems 0 with
      | none => some (s0, none)
      | some i =>
        match s0.items[i]? with
        | none => none
        | some it =>
          some ({ s0 with fSelectedItemIndex := (i : Int) },
                some (it.message.what != kFolderMsg))
    else some (s0, none)

end BookmarkBar

/-- One `BrowsingHistoryItem`: the address of the object and its fields; the
date-time is a count of seconds. -/
structure BrowsingHistoryItem where
  addr : Nat
  fURL : String
  fDateTime : Int
  fInvokationCount : Nat

namespace BrowsingHistoryItem

/-- The operator `BrowsingHistoryItem::operator<`. -/
def lt (a b : BrowsingHistoryItem) : Bool :=
  if a.addr = b.addr then false
  else decide (a.fDateTime < b.fDateTime) || decide (a.fURL < b.fURL)

end BrowsingHistoryItem

/-! ## Concrete data -/

/-- A platform on which every reference resolves to a plain file that can be
deleted, and every new entry is 50 wide. -/
def pf0 : Platform :=
  { initCheck := fun _ => true, isDirectory := fun _ => false,
    removeEntry := fun _ => true, renameEntry := fun _ _ => true,
    itemWidth := fun _ => 50 }

/-- A reference in directory 1 of device 0. -/
def ref0 (name : String) : entry_ref :=
  { device := 0, directory := 1, name := name }

/-- An entry at address `a` with width `w`. -/
def mkItem (a w : Nat) : IconMenuItem :=
  { addr := a, label := "", message := { what := B_REFS_RECEIVED, refs := ref0 "" },
    width := w }

/-- A bar with the given inline entries, overflow entries and mounted status,
an empty index and bounds width `bw`. -/
def mkBar (items overflow : List IconMenuItem) (mounted : Bool) (bw : Int) : BookmarkBar :=
  { items := items, overflowMounted := mounted, overflowItemWidth := 20,
    overflow := overflow, fItemsMap := fun _ => none, fOverflowMenuAdded := mounted,
    fSelectedItemIndex := -1, fLoadThreadId := -1, boundsWidth := bw,
    nextAddr := 100, alerts := [] }

/-- The index holding the listed pairs. -/
def mkIndex (l : List (ino_t × Option Nat)) : ItemsMap :=
  fun k => l.lookup k

/-- One inline entry (address 1) and one overflow entry (address 2, indexed
under node 7), overflow menu mounted, bounds width 60. -/
def barOneOne : BookmarkBar :=
  { mkBar [mkItem 1 50] [mkItem 2 50] true 60 with
    fItemsMap := mkIndex [(5, some 1), (7, some 2)] }

/-- Two inline entries, nothing in the overflow menu, empty index, bounds width 150. -/
def barTwo : BookmarkBar :=
  mkBar [mkItem 1 50, mkItem 2 50] [] false 150

/-- An empty bar of bounds width 150. -/
def barEmpty : BookmarkBar :=
  mkBar [] [] false 150

/-- Four inline entries of width 50, overflow menu empty and not mounted. -/
def barFour : BookmarkBar :=
  mkBar [mkItem 1 50, mkItem 2 50, mkItem 3 50, mkItem 4 50] [] false 110

/-- Three inline entries of widths 50, 90 and 10 that fit a width of 150. -/
def barThree : BookmarkBar :=
  mkBar [mkItem 1 50, mkItem 2 90, mkItem 3 10] [] false 150

/-- One inline entry and two overflow entries, all of width 50, overflow menu
mounted (its bar item is 20 wide), bounds width 150. -/
def barOneTwo : BookmarkBar :=
  mkBar [mkItem 1 50] [mkItem 2 50, mkItem 3 50] true 150

/-- Three inline and two overflow entries of width 50, overflow menu mounted,
bounds width 110. -/
def barFive : BookmarkBar :=
  mkBar [mkItem 1 50, mkItem 2 50, mkItem 3 50] [mkItem 4 50, mkItem 5 50] true 110

/-- The bar `barFive` after its second and third entry went to the overflow menu. -/
def barFiveAfter : BookmarkBar :=
  mkBar [mkItem 1 50] [mkItem 2 50, mkItem 3 50, mkItem 4 50, mkItem 5 50] true 110

/-- The platform `pf0`, except that renaming fails. -/
def pfRenameFails : Platform :=
  { pf0 with renameEntry := fun _ _ => false }

/-- One inline entry at address 1, labelled "old" and referring to the file
"old", bounds width 150. -/
def barOld : BookmarkBar :=
  mkBar [{ addr := 1, label := "old",
           message := { what := B_REFS_RECEIVED, refs := ref0 "old" }, width := 50 }]
    [] false 150

/-- The bar `barOneOne` while the loader thread 5 is active. -/
def barLoading : BookmarkBar :=
  { barOneOne with fLoadThreadId := 5 }

/-- A plain file named `name` under node `n`. -/
def fileEntry (n : ino_t) (name : String) : BookmarkBar.DirEntry :=
  { isFile := true, isDirectory := false, isSymLink := false,
    ref := some (ref0 name), node := some n }

/-- A history item at address 1 with URL "b", visited at time 1. -/
def histA : BrowsingHistoryItem :=
  { addr := 1, fURL := "b", fDateTime := 1, fInvokationCount := 0 }

/-- A history item at address 2 with URL "a", visited at time 2. -/
def histB : BrowsingHistoryItem :=
  { addr := 2, fURL := "a", fDateTime := 2, fInvokationCount := 0 }

/-- An empty bar whose index still maps node 7 to the entry at address 1: the
state the delete action leaves from `barSelected`. -/
def barStale : BookmarkBar :=
  { mkBar [] [] false 150 with
    fItemsMap := mkIndex [(7, some 1)], fSelectedItemIndex := 0 }

/-- An empty bar whose index maps node 7 to `NULL`. -/
def barNullEntry : BookmarkBar :=
  { mkBar [] [] false 150 with fItemsMap := mkIndex [(7, none)] }

/-- One inline entry (address 1, node 7) that is selected, bounds width 150. -/
def barSelected : BookmarkBar :=
  { mkBar [mkItem 1 50] [] false 150 with
    fItemsMap := mkIndex [(7, some 1)], fSelectedItemIndex := 0 }

end WebPositive

/-! ## Layout lemmas -/

namespace WebPositive

namespace BookmarkBar

theorem count_sub_mounted (s : BookmarkBar) :
    s.CountItems - (if s.overflowMounted then 1 else 0) = s.items.length := by
  unfold CountItems
  split <;> simp

theorem frameRight_eq_totalWidth (items : List IconMenuItem) (i : Nat) :
    frameRight items i = ((totalWidth (items.take (i + 1)) : Nat) : Int) := rfl

theorem totalWidth_append (xs ys : List IconMenuItem) :
    totalWidth (xs ++ ys) = totalWidth xs + totalWidth ys := by
  simp [totalWidth]

theorem totalWidth_cons (x : IconMenuItem) (xs : List IconMenuItem) :
    totalWidth (x :: xs) = x.width + totalWidth xs := by
  simp [totalWidth]

theorem totalWidth_take_le (xs : List IconMenuItem) (k : Nat) :
    totalWidth (xs.take k) ≤ totalWidth xs := by
  conv_rhs => rw [← List.take_append_drop k xs]
  rw [totalWidth_append]
  exact Nat.le_add_right _ _

theorem totalWidth_take_mono (xs : List IconMenuItem) {j k : Nat} (h : j ≤ k) :
    totalWidth (xs.take j) ≤ totalWidth (xs.take k) := by
  have e : xs.take j = (xs.take k).take j := by
    rw [List.take_take, Nat.min_eq_left h]
  rw [e]
  exact totalWidth_take_le _ _

/-- What the scan loop returns: the index reached, the bound checks passed on
the way, the failed check when it stopped early, and `rightmost`. -/
theorem scanLoop_spec (items : List IconMenuItem) (limit : Int) :
    ∀ (n i : Nat) (r : Int),
      i ≤ (scanLoop items limit n i r).1 ∧
      (scanLoop items limit n i r).1 ≤ i + n ∧
      (∀ k, i ≤ k → k < (scanLoop items limit n i r).1 → frameRight items k ≤ limit) ∧
      ((scanLoop items limit n i r).1 < i + n →
        frameRight items (scanLoop items limit n i r).1 > limit) ∧
      (scanLoop items limit n i r).2 =
        (if (scanLoop items limit n i r).1 = i then r
         else frameRight items ((scanLoop items limit n i r).1 - 1)) := by
  intro n
  induction n with
  | zero =>
    intro i r
    simp [scanLoop]
    intro k h1 h2
    omega
  | succ n ih =>
    intro i r
    unfold scanLoop
    by_cases h : frameRight items i > limit
    · rw [if_pos h]
      refine ⟨le_refl _, by omega, ?_, fun _ => h, by simp⟩
      intro k h1 h2
      omega
    · rw [if_neg h]
      obtain ⟨a, b, c, d, e⟩ := ih (i + 1) (frameRight items i)
      refine ⟨by omega, by omega, ?_, ?_, ?_⟩
      · intro k h1 h2
        by_cases hk : k = i
        · subst hk
          exact not_lt.mp h
        · exact c k (by omega) h2
      · intro h3
        exact d (by omega)
      · rw [e]
        have hne : (scanLoop items limit n (i + 1) (frameRight items i)).1 ≠ i := by omega
        simp only [hne, if_false]
        split
        · next h4 => rw [h4]; simp
        · rfl

/-- The spill loop moves the entries after the cut to the head of the overflow
menu and keeps their order. -/
theorem spillLoop_append (xs : List IconMenuItem) :
    ∀ (ys overflow : List IconMenuItem),
      spillLoop ys.length (xs.length + ys.length - 1) (xs ++ ys) overflow
        = (xs, ys ++ overflow) := by
  intro ys
  induction ys using List.reverseRecOn with
  | nil => intro overflow; simp [spillLoop]
  | append_singleton ys y ih =>
    intro overflow
    have hlen : (ys ++ [y]).length = ys.length + 1 := by simp
    rw [hlen]
    unfold spillLoop
    have hj : xs.length + (ys.length + 1) - 1 = (xs ++ ys).length := by simp
    rw [hj, ← List.append_assoc]
    simp only [List.getElem?_concat_length]
    rw [List.eraseIdx_append_of_length_le (le_refl _)]
    simp only [Nat.sub_self, List.eraseIdx_cons_zero, List.append_nil]
    have hj2 : (xs ++ ys).length - 1 = xs.length + ys.length - 1 := by simp
    rw [hj2, ih]
    simp

theorem spillLoop_take_drop (items overflow : List IconMenuItem) (i : Nat)
    (h : i ≤ items.length) :
    spillLoop (items.length - i) (items.length - 1) items overflow
      = (items.take i, items.drop i ++ overflow) := by
  have h1 := spillLoop_append (items.take i) (items.drop i) overflow
  simp only [List.length_take, List.length_drop, List.take_append_drop] at h1
  rw [Nat.min_eq_left h] at h1
  have h2 : i + (items.length - i) - 1 = items.length - 1 := by omega
  rw [h2] at h1
  exact h1


theorem frameRight_length (items : List IconMenuItem) :
    frameRight items items.length = ((totalWidth items : Nat) : Int) := by
  rw [frameRight_eq_totalWidth, List.take_of_length_le (Nat.le_succ _)]

theorem itemFrameRight_more (items : List IconMenuItem) (moreW : Nat) :
    itemFrameRight items true moreW items.length
      = some (((totalWidth items : Nat) : Int) + (moreW : Int)) := by
  simp [itemFrameRight, frameRight_length]

theorem insertIdx_length_eq (items : List IconMenuItem) (x : IconMenuItem) :
    items.insertIdx items.length x = items ++ [x] :=
  List.insertIdx_length_self items x

/-- One step of the pull-back loop when the first overflow entry fits. -/
theorem pullBackLoop_step (W : Int) (moreW : Nat) (x : IconMenuItem)
    (rest items : List IconMenuItem) (r omw : Int)
    (hfit : ¬ ((x.width : Int) + r > W - omw)) :
    pullBackLoop W true moreW (x :: rest) items items.length r omw
      = pullBackLoop W true moreW rest (items ++ [x]) (items ++ [x]).length
          (((totalWidth (items ++ [x]) : Nat) : Int) + (moreW : Int))
          (if rest.length ≤ 1 then 0 else omw) := by
  rw [pullBackLoop, if_neg hfit, insertIdx_length_eq]
  have h := itemFrameRight_more (items ++ [x]) moreW
  simp only [List.length_append, List.length_singleton] at h ⊢
  rw [h]

/-- The pull-back loop stops at once when the first overflow entry does not fit. -/
theorem pullBackLoop_stop (W : Int) (mounted : Bool) (moreW : Nat) (x : IconMenuItem)
    (rest items : List IconMenuItem) (i : Nat) (r omw : Int)
    (h : (x.width : Int) + r > W - omw) :
    pullBackLoop W mounted moreW (x :: rest) items i r omw = some (items, x :: rest) := by
  rw [pullBackLoop, if_pos h]

/-- The pull-back loop moves a leading segment of the overflow menu to the end
of the inline row. -/
theorem pullBackLoop_split (W : Int) (moreW : Nat) :
    ∀ (overflow items : List IconMenuItem) (r omw : Int),
      ∃ pulled rest, overflow = pulled ++ rest ∧
        pullBackLoop W true moreW overflow items items.length r omw
          = some (items ++ pulled, rest) := by
  intro overflow
  induction overflow with
  | nil =>
    intro items r omw
    exact ⟨[], [], rfl, by simp [pullBackLoop]⟩
  | cons x rest ih =>
    intro items r omw
    by_cases hfit : (x.width : Int) + r > W - omw
    · exact ⟨[], x :: rest, rfl, by rw [pullBackLoop_stop _ _ _ _ _ _ _ _ _ hfit]; simp⟩
    · rw [pullBackLoop_step W moreW x rest items r omw hfit]
      obtain ⟨pulled, rest1, h1, h2⟩ := ih (items ++ [x])
        (((totalWidth (items ++ [x]) : Nat) : Int) + (moreW : Int))
        (if rest.length ≤ 1 then 0 else omw)
      refine ⟨x :: pulled, rest1, by rw [h1]; rfl, ?_⟩
      rw [h2]
      simp

/-- The pull-back loop empties the overflow menu when the bar has room for
every entry, the overflow item and the reserve. -/
theorem pullBackLoop_all (W : Int) (moreW : Nat) :
    ∀ (overflow items : List IconMenuItem) (r omw : Int),
      r ≤ ((totalWidth items : Nat) : Int) + (moreW : Int) → omw ≤ 32 →
      ((totalWidth items + totalWidth overflow + moreW : Nat) : Int) + 32 ≤ W →
      pullBackLoop W true moreW overflow items items.length r omw
        = some (items ++ overflow, []) := by
  intro overflow
  induction overflow with
  | nil =>
    intro items r omw _ _ _
    simp [pullBackLoop]
  | cons x rest ih =>
    intro items r omw hr homw hW
    rw [totalWidth_cons] at hW
    have hfit : ¬ ((x.width : Int) + r > W - omw) := by
      push_cast at hW
      omega
    rw [pullBackLoop_step W moreW x rest items r omw hfit]
    rw [ih (items ++ [x]) _ _ (le_refl _)]
    · simp
    · split <;> omega
    · rw [totalWidth_append, totalWidth_cons]
      simp only [totalWidth, List.map_nil, List.sum_nil] at hW ⊢
      push_cast at hW ⊢
      omega

/-- Value of `FrameResized` on the pull-back branch. -/
theorem FrameResized_pull (W : Int) (s : BookmarkBar)
    (h : (scanLoop s.items (W - reserve s) s.items.length 0 0).1 = s.items.length) :
    FrameResized W s =
      match pullBackLoop W s.overflowMounted s.overflowItemWidth s.overflow s.items
          s.items.length (scanLoop s.items (W - reserve s) s.items.length 0 0).2
          (reserve s) with
      | none => none
      | some (items1, overflow1) =>
        if overflow1.length = 0 then
          some { s with items := items1, overflow := overflow1,
                        overflowMounted := false, fOverflowMenuAdded := false }
        else
          some { s with items := items1, overflow := overflow1 } := by
  unfold FrameResized
  simp only [count_sub_mounted]
  unfold reserve at h ⊢
  rw [if_pos h, h]

/-- Value of `FrameResized` on the spill branch. -/
theorem FrameResized_spill (W : Int) (s : BookmarkBar)
    (h : (scanLoop s.items (W - reserve s) s.items.length 0 0).1 ≠ s.items.length) :
    FrameResized W s =
      if s.overflowMounted = false then
        some { s with
          items := s.items.take (scanLoop s.items (W - reserve s) s.items.length 0 0).1,
          overflow :=
            s.items.drop (scanLoop s.items (W - reserve s) s.items.length 0 0).1 ++ s.overflow,
          overflowMounted := true, fOverflowMenuAdded := true }
      else
        some { s with
          items := s.items.take (scanLoop s.items (W - reserve s) s.items.length 0 0).1,
          overflow :=
            s.items.drop (scanLoop s.items (W - reserve s) s.items.length 0 0).1
              ++ s.overflow } := by
  have hle := (scanLoop_spec s.items (W - reserve s) s.items.length 0 0).2.1
  unfold FrameResized
  simp only [count_sub_mounted]
  unfold reserve at h hle ⊢
  rw [if_neg h, spillLoop_take_drop _ _ _ (by omega)]


/-- On a bar whose overflow menu is mounted whenever it holds an entry,
`FrameResized` returns; it keeps the displayed sequence and every field other
than the two entry lists and the mounted status, and it leaves the overflow
menu mounted exactly when it holds an entry. -/
theorem FrameResized_total (W : Int) (s : BookmarkBar)
    (hwf : s.overflow ≠ [] → s.overflowMounted = true) :
    ∃ s1, FrameResized W s = some s1 ∧
      s1.items ++ s1.overflow = s.items ++ s.overflow ∧
      s1.fItemsMap = s.fItemsMap ∧ s1.boundsWidth = s.boundsWidth ∧
      s1.nextAddr = s.nextAddr ∧ s1.overflowItemWidth = s.overflowItemWidth ∧
      s1.fSelectedItemIndex = s.fSelectedItemIndex ∧ s1.fLoadThreadId = s.fLoadThreadId ∧
      s1.alerts = s.alerts ∧
      (s1.overflowMounted = true ↔ s1.overflow ≠ []) ∧
      (s.fOverflowMenuAdded = s.overflowMounted →
        s1.fOverflowMenuAdded = s1.overflowMounted) := by
  by_cases h : (scanLoop s.items (W - reserve s) s.items.length 0 0).1 = s.items.length
  · rw [FrameResized_pull W s h]
    by_cases he : s.overflow = []
    · rw [he]
      simp [pullBackLoop]
    · have hm := hwf he
      rw [hm]
      obtain ⟨pulled, rest, h1, h2⟩ := pullBackLoop_split W s.overflowItemWidth s.overflow
        s.items (scanLoop s.items (W - reserve s) s.items.length 0 0).2 (reserve s)
      rw [h2]
      by_cases hr : rest.length = 0
      · simp only [hr, if_true]
        have hr2 : rest = [] := List.length_eq_zero.mp hr
        refine ⟨_, rfl, ?_⟩
        simp [h1, hr2]
      · simp only [hr, if_false]
        have hr2 : rest ≠ [] := fun e => hr (by rw [e]; rfl)
        refine ⟨_, rfl, ?_⟩
        simp [h1, hr2, hm]
  · rw [FrameResized_spill W s h]
    have hle := (scanLoop_spec s.items (W - reserve s) s.items.length 0 0).2.1
    have hlt : (scanLoop s.items (W - reserve s) s.items.length 0 0).1 < s.items.length := by
      omega
    have hne : List.drop (scanLoop s.items (W - reserve s) s.items.length 0 0).1 s.items ≠ [] := by
      intro e
      have := List.drop_eq_nil_iff.mp e
      omega
    by_cases hm : s.overflowMounted = false
    · rw [if_pos hm]
      refine ⟨_, rfl, ?_⟩
      simp [← List.append_assoc, hne]
    · rw [if_neg hm]
      refine ⟨_, rfl, ?_⟩
      have hm2 : s.overflowMounted = true := by simpa using hm
      simp [← List.append_assoc, hne, hm2]


/-- Whenever the pull-back loop returns, it has moved a leading segment of the
overflow menu to the end of the inline row. -/
theorem pullBackLoop_some (W : Int) (mounted : Bool) (moreW : Nat) :
    ∀ (overflow items : List IconMenuItem) (r omw : Int) (a b : List IconMenuItem),
      pullBackLoop W mounted moreW overflow items items.length r omw = some (a, b) →
      ∃ pulled, overflow = pulled ++ b ∧ a = items ++ pulled := by
  intro overflow
  induction overflow with
  | nil =>
    intro items r omw a b h
    simp only [pullBackLoop, Option.some.injEq, Prod.mk.injEq] at h
    exact ⟨[], by simp [h.2], by simp [h.1]⟩
  | cons x rest ih =>
    intro items r omw a b h
    by_cases hfit : (x.width : Int) + r > W - omw
    · rw [pullBackLoop_stop _ _ _ _ _ _ _ _ _ hfit] at h
      simp only [Option.some.injEq, Prod.mk.injEq] at h
      exact ⟨[], by simp [h.2], by simp [h.1]⟩
    · rw [pullBackLoop, if_neg hfit, insertIdx_length_eq] at h
      cases hq : itemFrameRight (items ++ [x]) mounted moreW (items.length + 1) with
      | none => rw [hq] at h; simp at h
      | some right =>
        rw [hq] at h
        simp only at h
        have hlen : items.length + 1 = (items ++ [x]).length := by simp
        rw [hlen] at h
        obtain ⟨pulled, h1, h2⟩ := ih _ _ _ _ _ h
        exact ⟨x :: pulled, by rw [h1]; rfl, by rw [h2]; simp⟩

/-- Whenever `FrameResized` returns, the displayed sequence is the one it started
from. -/
theorem FrameResized_displayed (W : Int) (s s1 : BookmarkBar)
    (h : FrameResized W s = some s1) :
    s1.items ++ s1.overflow = s.items ++ s.overflow := by
  by_cases hb : (scanLoop s.items (W - reserve s) s.items.length 0 0).1 = s.items.length
  · rw [FrameResized_pull W s hb] at h
    cases hq : pullBackLoop W s.overflowMounted s.overflowItemWidth s.overflow s.items
        s.items.length (scanLoop s.items (W - reserve s) s.items.length 0 0).2 (reserve s) with
    | none => rw [hq] at h; simp at h
    | some q =>
      obtain ⟨a, b⟩ := q
      obtain ⟨pulled, h1, h2⟩ := pullBackLoop_some _ _ _ _ _ _ _ _ _ hq
      rw [hq] at h
      simp only at h
      split at h <;>
        (simp only [Option.some.injEq] at h; subst h; simp [h1, h2])
  · rw [FrameResized_spill W s hb] at h
    split at h <;>
      (simp only [Option.some.injEq] at h; subst h; simp [← List.append_assoc])

/-- C7. Order preservation: `FrameResized(W)` neither creates, drops nor
duplicates an entry and keeps the relative order.  Whenever the call returns,
the inline entries followed by the overflow entries are the same list as
before; and the call does return on every bar whose overflow menu is mounted
when it holds an entry (on other bars the pull-back loop can read the frame of
`ItemAt(i)` where there is no item). -/
theorem C7_FrameResized_preserves_order (W : Int) (s : BookmarkBar) :
    (∀ s1, FrameResized W s = some s1 →
      s1.items ++ s1.overflow = s.items ++ s.overflow) ∧
    ((s.overflow ≠ [] → s.overflowMounted = true) →
      ∃ s1, FrameResized W s = some s1 ∧
        s1.items ++ s1.overflow = s.items ++ s.overflow) := by
  refine ⟨fun s1 h => FrameResized_displayed W s s1 h, fun hwf => ?_⟩
  obtain ⟨s1, h1, h2, _⟩ := FrameResized_total W s hwf
  exact ⟨s1, h1, h2⟩

/-- Looking up an absent key with `operator[]` and erasing it restores the map. -/
theorem ItemsMap_index_erase_absent (m : ItemsMap) (k : ino_t) (h : m k = none) :
    (m.index k).1 = none ∧ (m.index k).2.erase k = m := by
  unfold ItemsMap.index ItemsMap.erase
  rw [h]
  refine ⟨rfl, ?_⟩
  simp only [Function.update_idem]
  rw [← h]
  exact Function.update_eq_self k m

/-- Looking up a present key with `operator[]` leaves the map as it is. -/
theorem ItemsMap_index_present (m : ItemsMap) (k : ino_t) (v : Option Nat)
    (h : m k = some v) : m.index k = (v, m) := by
  unfold ItemsMap.index
  rw [h]

/-- C3. Idempotent removal: a `B_ENTRY_REMOVED` event for a node without index
entry does what a bare layout recomputation does, leaves `fItemsMap` as it was
and removes no entry from display (the inline entries followed by the overflow
entries are the same list as before). -/
theorem C3_removed_absent_noop (pf : Platform) (n : ino_t) (s : BookmarkBar)
    (hwf : s.overflow ≠ [] → s.overflowMounted = true)
    (habs : s.fItemsMap n = none) :
    ∃ s1, MessageReceived pf (.nodeMonitor (.entryRemoved n)) s = some s1 ∧
      FrameResized s.boundsWidth s = some s1 ∧
      s1.fItemsMap = s.fItemsMap ∧
      s1.items ++ s1.overflow = s.items ++ s.overflow := by
  obtain ⟨h1, h2⟩ := ItemsMap_index_erase_absent s.fItemsMap n habs
  obtain ⟨s1, e1, e2, e3, _⟩ := FrameResized_total s.boundsWidth s hwf
  refine ⟨s1, ?_, e1, e3, e2⟩
  simp only [MessageReceived, entryRemoved, h1, h2, removeItemPtr]
  exact e1

/-- C3 at a bar with two inline entries and an empty index. -/
theorem C3_removed_absent_noop_witness :
    ∃ s1, MessageReceived pf0 (.nodeMonitor (.entryRemoved 7))
        barTwo = some s1 ∧
      FrameResized barTwo.boundsWidth
        barTwo = some s1 ∧
      s1.fItemsMap = barTwo.fItemsMap ∧
      s1.items ++ s1.overflow =
        barTwo.items ++
          barTwo.overflow :=
  C3_removed_absent_noop pf0 7 barTwo
    (fun h => absurd rfl h) rfl


theorem removeItemPtr_ne_nil (p : Option Nat) (l : List IconMenuItem)
    (h : removeItemPtr p l ≠ []) : l ≠ [] := by
  intro e
  apply h
  rw [e]
  cases p <;> simp [removeItemPtr]

/-- The `B_ENTRY_REMOVED` case returns on every bar whose overflow menu is
mounted when it holds an entry: the node has no index entry afterwards, the
entry it denoted is taken out of both menus and the layout is recomputed. -/
theorem entryRemoved_total (n : ino_t) (s : BookmarkBar)
    (hwf : s.overflow ≠ [] → s.overflowMounted = true) :
    ∃ s1, entryRemoved n s = some s1 ∧
      s1.fItemsMap = (s.fItemsMap.index n).2.erase n ∧
      s1.items ++ s1.overflow =
        removeItemPtr (s.fItemsMap.index n).1 s.items ++
          removeItemPtr (s.fItemsMap.index n).1 s.overflow ∧
      (s1.overflowMounted = true ↔ s1.overflow ≠ []) ∧
      (s.fOverflowMenuAdded = s.overflowMounted →
        s1.fOverflowMenuAdded = s1.overflowMounted) := by
  unfold entryRemoved
  obtain ⟨s1, e1, e2, e3, _, _, _, _, _, _, e4, e5⟩ := FrameResized_total s.boundsWidth
    { s with items := removeItemPtr (s.fItemsMap.index n).1 s.items,
             overflow := removeItemPtr (s.fItemsMap.index n).1 s.overflow,
             fItemsMap := (s.fItemsMap.index n).2.erase n }
    (fun h => hwf (removeItemPtr_ne_nil _ _ h))
  exact ⟨s1, e1, e3, e2, e4, e5⟩

/-- C5. Move-out equivalence: for a node whose index entry holds an entry, a
`B_ENTRY_MOVED` event with different source and destination directories gives
the same result as a `B_ENTRY_REMOVED` event for that node, on every field of
the state; and on a bar whose overflow menu is mounted when it holds an entry
both handlers return, with the index entry of the node erased. -/
theorem C5_move_out_equals_removed (pf : Platform) (n : ino_t) (device fromDir toDir : Int)
    (name : String) (s : BookmarkBar) (a : Nat)
    (hmap : s.fItemsMap n = some (some a)) (hne : fromDir ≠ toDir) :
    MessageReceived pf (.nodeMonitor (.entryMoved n device fromDir toDir name)) s
      = MessageReceived pf (.nodeMonitor (.entryRemoved n)) s ∧
    ((s.overflow ≠ [] → s.overflowMounted = true) →
      ∃ s1, MessageReceived pf (.nodeMonitor (.entryRemoved n)) s = some s1 ∧
        s1.fItemsMap n = none) := by
  constructor
  · simp only [MessageReceived, entryMoved, ItemsMap_index_present _ _ _ hmap, if_neg hne]
  · intro hwf
    obtain ⟨s1, e1, e2, _⟩ := entryRemoved_total n s hwf
    refine ⟨s1, e1, ?_⟩
    rw [e2]
    simp [ItemsMap.erase]

/-- C5 at a bar with one inline and one overflow entry, the overflow entry being
the one that moves out. -/
theorem C5_move_out_equals_removed_witness :
    MessageReceived pf0 (.nodeMonitor (.entryMoved 7 0 1 2 "b")) barOneOne
      = MessageReceived pf0 (.nodeMonitor (.entryRemoved 7)) barOneOne ∧
    ((barOneOne.overflow ≠ [] → barOneOne.overflowMounted = true) →
      ∃ s1, MessageReceived pf0 (.nodeMonitor (.entryRemoved 7)) barOneOne = some s1 ∧
        s1.fItemsMap 7 = none) :=
  C5_move_out_equals_removed pf0 7 0 1 2 "b" barOneOne 2 rfl (by decide)

/-- C4. Rename in place: for a node whose index entry holds the entry at
address `a`, a `B_ENTRY_MOVED` event with equal source and destination
directory returns a state with the same index, the same mounted status and
flag, and, position by position in the inline row and in the overflow menu,
the same entry, except that the entry at address `a` now carries the name of
the event as label and a message with the new reference; nothing is added or
removed. -/
theorem C4_rename_in_place (pf : Platform) (n : ino_t) (device dir : Int)
    (name : String) (s : BookmarkBar) (a : Nat)
    (hmap : s.fItemsMap n = some (some a)) :
    ∃ s1, MessageReceived pf (.nodeMonitor (.entryMoved n device dir dir name)) s = some s1 ∧
      s1.fItemsMap = s.fItemsMap ∧
      s1.overflowMounted = s.overflowMounted ∧
      s1.fOverflowMenuAdded = s.fOverflowMenuAdded ∧
      s1.items.length = s.items.length ∧ s1.overflow.length = s.overflow.length ∧
      (∀ (k : Nat) (e : IconMenuItem), s.items[k]? = some e →
        s1.items[k]? = some (if e.addr = a then
          { e with label := name,
                   message := { what := if pf.isDirectory ⟨device, dir, name⟩ then kFolderMsg
                                        else B_REFS_RECEIVED,
                                refs := ⟨device, dir, name⟩ } } else e)) ∧
      (∀ (k : Nat) (e : IconMenuItem), s.overflow[k]? = some e →
        s1.overflow[k]? = some (if e.addr = a then
          { e with label := name,
                   message := { what := if pf.isDirectory ⟨device, dir, name⟩ then kFolderMsg
                                        else B_REFS_RECEIVED,
                                refs := ⟨device, dir, name⟩ } } else e)) ∧
      s1.items.map (fun it => it.addr) = s.items.map (fun it => it.addr) ∧
      s1.overflow.map (fun it => it.addr) = s.overflow.map (fun it => it.addr) := by
  refine ⟨{ s with
      items := setLabelMessage a name
        { what := if pf.isDirectory ⟨device, dir, name⟩ then kFolderMsg else B_REFS_RECEIVED,
          refs := ⟨device, dir, name⟩ } s.items,
      overflow := setLabelMessage a name
        { what := if pf.isDirectory ⟨device, dir, name⟩ then kFolderMsg else B_REFS_RECEIVED,
          refs := ⟨device, dir, name⟩ } s.overflow }, ?_,
    rfl, rfl, rfl, by simp [setLabelMessage], by simp [setLabelMessage], ?_, ?_, ?_, ?_⟩
  · simp only [MessageReceived, entryMoved, ItemsMap_index_present _ _ _ hmap, if_true]
  · intro k e he
    simp only [setLabelMessage, List.getElem?_map, he, Option.map_some']
  · intro k e he
    simp only [setLabelMessage, List.getElem?_map, he, Option.map_some']
  · simp only [setLabelMessage, List.map_map]
    apply List.map_congr_left
    intro e _
    simp only [Function.comp]
    split <;> rfl
  · simp only [setLabelMessage, List.map_map]
    apply List.map_congr_left
    intro e _
    simp only [Function.comp]
    split <;> rfl


/-- C4 at a bar with one inline and one overflow entry, renaming the overflow
entry. -/
theorem C4_rename_in_place_witness :
    ∃ s1, MessageReceived pf0 (.nodeMonitor (.entryMoved 7 0 1 1 "b")) barOneOne = some s1 ∧
      s1.fItemsMap = barOneOne.fItemsMap ∧
      s1.overflowMounted = barOneOne.overflowMounted ∧
      s1.fOverflowMenuAdded = barOneOne.fOverflowMenuAdded ∧
      s1.items.length = barOneOne.items.length ∧
      s1.overflow.length = barOneOne.overflow.length ∧
      (∀ (k : Nat) (e : IconMenuItem), barOneOne.items[k]? = some e →
        s1.items[k]? = some (if e.addr = 2 then
          { e with label := "b",
                   message := { what := if pf0.isDirectory ⟨0, 1, "b"⟩ then kFolderMsg
                                        else B_REFS_RECEIVED,
                                refs := ⟨0, 1, "b"⟩ } } else e)) ∧
      (∀ (k : Nat) (e : IconMenuItem), barOneOne.overflow[k]? = some e →
        s1.overflow[k]? = some (if e.addr = 2 then
          { e with label := "b",
                   message := { what := if pf0.isDirectory ⟨0, 1, "b"⟩ then kFolderMsg
                                        else B_REFS_RECEIVED,
                                refs := ⟨0, 1, "b"⟩ } } else e)) ∧
      s1.items.map (fun it => it.addr) = barOneOne.items.map (fun it => it.addr) ∧
      s1.overflow.map (fun it => it.addr) = barOneOne.overflow.map (fun it => it.addr) :=
  C4_rename_in_place pf0 7 0 1 "b" barOneOne 2 rfl

theorem filter_addr_eq_nil (l : List IconMenuItem) (a : Nat)
    (h : ∀ it ∈ l, it.addr < a) :
    l.filter (fun it => decide (it.addr = a)) = [] := by
  rw [List.filter_eq_nil_iff]
  intro it hit
  have := h it hit
  simp only [decide_eq_true_eq]
  omega

/-- C1 (amended). Idempotent insert: take a bar in which node `i` has no index
entry, or has one that holds an address borne by exactly one displayed entry
(inline row and overflow menu together); the overflow menu is mounted when it
holds an entry, `r1` resolves and the next address is not the address of a
displayed entry.  Running `_AddItem(i, r1)` and then `_AddItem(i, r2)` returns
a state `s1` after the first call which the second call returns unchanged;
in `s1` the index has one entry for `i`, and it holds an address borne by
exactly one displayed entry.  A `B_ENTRY_CREATED` event whose reference
resolves is that same `_AddItem` call, and the loop of a
`MSG_ADD_BOOKMARK_ITEMS` batch carrying both pairs ends in `s1` as well.
Whenever `i` had an index entry before, neither call changes anything. -/
theorem C1_AddItem_idempotent_when_index_consistent (pf : Platform) (i : ino_t)
    (r1 r2 : entry_ref) (s : BookmarkBar)
    (hwf : s.overflow ≠ [] → s.overflowMounted = true)
    (hr1 : pf.initCheck r1 = true)
    (hfresh : ∀ it ∈ displayed s, it.addr < s.nextAddr)
    (hidx : s.fItemsMap i = none ∨
      ∃ a, s.fItemsMap i = some (some a) ∧
        ((displayed s).filter (fun it => decide (it.addr = a))).length = 1) :
    ∃ s1 a, _AddItem pf i r1 s = some s1 ∧ _AddItem pf i r2 s1 = some s1 ∧
      MessageReceived pf (.nodeMonitor (.entryCreated i r1.device r1.directory r1.name)) s
        = some s1 ∧
      addItems pf [(i, r1), (i, r2)] s = some s1 ∧
      s1.fItemsMap.count i = 1 ∧
      s1.fItemsMap i = some (some a) ∧
      ((displayed s1).filter (fun it => decide (it.addr = a))).length = 1 ∧
      (s.fItemsMap i ≠ none → s1 = s) := by
  have hcreated : MessageReceived pf
      (.nodeMonitor (.entryCreated i r1.device r1.directory r1.name)) s
        = _AddItem pf i r1 s := by
    simp only [MessageReceived, entryCreated]
    rw [if_pos hr1]
  rw [hcreated]
  rcases hidx with hm | ⟨a, hm, hone⟩
  · have hc : s.fItemsMap.count i = 0 := by simp [ItemsMap.count, hm]
    obtain ⟨s1, e1, e2, e3, _⟩ := FrameResized_total s.boundsWidth
      { s with
        items := s.items.insertIdx (s.CountItems - (if s.overflowMounted then 1 else 0))
          { addr := s.nextAddr, label := r1.name,
            message := { what := if pf.isDirectory r1 then kFolderMsg else B_REFS_RECEIVED,
                         refs := r1 },
            width := pf.itemWidth r1.name },
        fItemsMap := s.fItemsMap.assign i (some s.nextAddr),
        nextAddr := s.nextAddr + 1 } hwf
    have hadd : _AddItem pf i r1 s = some s1 := by
      unfold _AddItem
      rw [if_neg (by rw [hc]; decide), if_neg (by rw [hr1]; decide)]
      exact e1
    have hval : s1.fItemsMap i = some (some s.nextAddr) := by
      rw [e3]
      simp [ItemsMap.assign]
    have hc1 : s1.fItemsMap.count i = 1 := by simp [ItemsMap.count, hval]
    have hagain : _AddItem pf i r2 s1 = some s1 := by
      unfold _AddItem
      rw [if_pos (by rw [hc1]; decide)]
    refine ⟨s1, s.nextAddr, hadd, hagain, hadd, by simp [addItems, hadd, hagain], hc1,
      hval, ?_, fun h => absurd hm h⟩
    simp only [displayed] at hfresh ⊢
    rw [e2]
    simp only [count_sub_mounted, insertIdx_length_eq, List.filter_append]
    rw [filter_addr_eq_nil s.items s.nextAddr (fun it h => hfresh it (by simp [h])),
      filter_addr_eq_nil s.overflow s.nextAddr (fun it h => hfresh it (by simp [h]))]
    simp
  · have hc : s.fItemsMap.count i = 1 := by simp [ItemsMap.count, hm]
    have h1 : ∀ r, _AddItem pf i r s = some s := by
      intro r
      unfold _AddItem
      rw [if_pos (by rw [hc]; decide)]
    exact ⟨s, a, h1 r1, h1 r2, h1 r1, by simp [addItems, h1], hc, hm, hone, fun _ => rfl⟩

/-- C1 (amended) at a bar with two inline entries, adding node 9 twice. -/
theorem C1_AddItem_idempotent_when_index_consistent_witness :
    ∃ s1 a, _AddItem pf0 9 (ref0 "a") barTwo = some s1 ∧
      _AddItem pf0 9 (ref0 "b") s1 = some s1 ∧
      MessageReceived pf0
        (.nodeMonitor (.entryCreated 9 (ref0 "a").device (ref0 "a").directory (ref0 "a").name))
        barTwo = some s1 ∧
      addItems pf0 [(9, ref0 "a"), (9, ref0 "b")] barTwo = some s1 ∧
      s1.fItemsMap.count 9 = 1 ∧
      s1.fItemsMap 9 = some (some a) ∧
      ((displayed s1).filter (fun it => decide (it.addr = a))).length = 1 ∧
      (barTwo.fItemsMap 9 ≠ none → s1 = barTwo) :=
  C1_AddItem_idempotent_when_index_consistent pf0 9 (ref0 "a") (ref0 "b") barTwo
    (fun h => absurd rfl h) rfl (by decide) (Or.inl rfl)

/-- C1 fails as stated.  The delete action on `barSelected` leaves `barStale`:
nothing on display and node 7 still indexed.  From there `_AddItem(7, r1)`
followed by `_AddItem(7, r2)`, both references resolving, leaves nothing on
display: no menu entry for node 7, where the claim says one.  The same
happens from a bar whose index holds `NULL` for node 7. -/
theorem C1_indexed_node_without_entry_gets_none :
    MessageReceived pf0 .deleteMsg barSelected = some barStale ∧
    pf0.initCheck (ref0 "a") = true ∧ pf0.initCheck (ref0 "b") = true ∧
    ((_AddItem pf0 7 (ref0 "a") barStale).bind (_AddItem pf0 7 (ref0 "b"))).map
        (fun s => (s.items, s.overflow, s.fItemsMap 7))
      = some ([], [], some (some 1)) ∧
    ((_AddItem pf0 7 (ref0 "a") barNullEntry).bind (_AddItem pf0 7 (ref0 "b"))).map
        (fun s => (s.items, s.overflow, s.fItemsMap 7))
      = some ([], [], some none) := by
  refine ⟨rfl, rfl, rfl, ?_, ?_⟩ <;> decide

/-- C2. On the empty bar a `B_ENTRY_MOVED` event for node 7, which has no index
entry, leaves nothing on display and an index entry that holds `NULL`, whereas
the `B_ENTRY_CREATED` event for the same node and reference displays a new
entry and indexes it. -/
theorem C2_moved_unknown_differs_from_created :
    (MessageReceived pf0 (.nodeMonitor (.entryMoved 7 0 2 1 "a")) barEmpty).map
        (fun s => (s.items.map (fun it => it.addr), s.overflow, s.fItemsMap 7))
      = some ([], [], some none) ∧
    (MessageReceived pf0 (.nodeMonitor (.entryCreated 7 0 1 "a")) barEmpty).map
        (fun s => (s.items.map (fun it => it.addr), s.overflow, s.fItemsMap 7))
      = some ([100], [], some (some 100)) := by
  constructor <;> decide


theorem frameRight_take (items : List IconMenuItem) {k i : Nat} (h : k < i) :
    frameRight (items.take i) k = frameRight items k := by
  unfold frameRight
  rw [List.take_take, Nat.min_eq_left (by omega)]

theorem totalWidth_take_succ (items : List IconMenuItem) (i : Nat) (h : i < items.length) :
    totalWidth (items.take (i + 1)) = totalWidth (items.take i) + (items.get ⟨i, h⟩).width := by
  rw [List.take_succ, totalWidth_append]
  simp [List.getElem?_eq_getElem h, totalWidth]

/-- The scan loop leaves in `rightmost` the total width of the entries it passed. -/
theorem scanLoop_rightmost (items : List IconMenuItem) (limit : Int) (n : Nat) :
    (scanLoop items limit n 0 0).2
      = ((totalWidth (items.take (scanLoop items limit n 0 0).1) : Nat) : Int) := by
  have h := (scanLoop_spec items limit n 0 0).2.2.2.2
  rw [h]
  split
  · next h0 => rw [h0]; simp [totalWidth]
  · next h0 =>
    rw [frameRight_eq_totalWidth]
    have : (scanLoop items limit n 0 0).1 - 1 + 1 = (scanLoop items limit n 0 0).1 := by omega
    rw [this]

/-- The scan loop stops at the first index whose right edge exceeds the limit. -/
theorem scanLoop_unique (items : List IconMenuItem) (limit : Int) (n i : Nat)
    (hi : i ≤ n) (hfit : ∀ k, k < i → frameRight items k ≤ limit)
    (hstop : i < n → frameRight items i > limit) :
    (scanLoop items limit n 0 0).1 = i := by
  obtain ⟨_, h2, h3, h4, _⟩ := scanLoop_spec items limit n 0 0
  by_contra hne
  rcases Nat.lt_or_gt_of_ne hne with hlt | hgt
  · have := h4 (by omega)
    have := hfit _ hlt
    omega
  · have := h3 i (Nat.zero_le _) hgt
    have := hstop (by omega)
    omega

/-- A layout that `FrameResized(W)` leaves as it is: every inline entry fits the
usable width, the first overflow entry does not fit behind them, and an empty
overflow menu is not mounted. -/
theorem FrameResized_stable (W : Int) (t : BookmarkBar)
    (hfit : ∀ k, k < t.items.length → frameRight t.items k ≤ W - reserve t)
    (hempty : t.overflow = [] → t.overflowMounted = false ∧ t.fOverflowMenuAdded = false)
    (hfirst : ∀ x rest, t.overflow = x :: rest →
      (x.width : Int) + ((totalWidth t.items : Nat) : Int) > W - reserve t) :
    FrameResized W t = some t := by
  have hb : (scanLoop t.items (W - reserve t) t.items.length 0 0).1 = t.items.length :=
    scanLoop_unique _ _ _ _ (le_refl _) hfit (fun h => absurd h (lt_irrefl _))
  rw [FrameResized_pull W t hb, scanLoop_rightmost, hb, List.take_length]
  cases ho : t.overflow with
  | nil =>
    obtain ⟨h1, h2⟩ := hempty ho
    simp only [pullBackLoop, List.length_nil, if_true]
    cases t
    simp only at ho h1 h2
    subst ho h1 h2
    rfl
  | cons x rest =>
    rw [pullBackLoop_stop _ _ _ _ _ _ _ _ _ (hfirst x rest ho)]
    simp only [List.length_cons, Nat.add_one_ne_zero, if_false]
    rw [← ho]

/-- When the pull-back loop returns without lengthening the inline row, the
first overflow entry failed the width check. -/
theorem pullBackLoop_none_pulled (W : Int) (mounted : Bool) (moreW : Nat) (x : IconMenuItem)
    (rest items : List IconMenuItem) (r omw : Int) (a b : List IconMenuItem)
    (h : pullBackLoop W mounted moreW (x :: rest) items items.length r omw = some (a, b))
    (hlen : a.length ≤ items.length) :
    (x.width : Int) + r > W - omw := by
  by_contra hfit
  rw [pullBackLoop, if_neg hfit, insertIdx_length_eq] at h
  cases hq : itemFrameRight (items ++ [x]) mounted moreW (items.length + 1) with
  | none => rw [hq] at h; simp at h
  | some right =>
    rw [hq] at h
    simp only at h
    have hl : items.length + 1 = (items ++ [x]).length := by simp
    rw [hl] at h
    obtain ⟨pulled, _, h2⟩ := pullBackLoop_some _ _ _ _ _ _ _ _ _ h
    rw [h2] at hlen
    simp at hlen


/-- On the pull-back branch, a call that pulls nothing and keeps the reserve
leaves a layout that a second call does not change. -/
theorem FrameResized_pull_settled (W : Int) (s : BookmarkBar)
    (hwf : s.overflow ≠ [] → s.overflowMounted = true)
    (hb : (scanLoop s.items (W - reserve s) s.items.length 0 0).1 = s.items.length) :
    ∃ s1, FrameResized W s = some s1 ∧
      (s1.items.length ≤ s.items.length → reserve s1 = reserve s →
        FrameResized W s1 = some s1) := by
  rw [FrameResized_pull W s hb]
  have hfit0 : ∀ k, k < s.items.length → frameRight s.items k ≤ W - reserve s := by
    intro k hk
    exact (scanLoop_spec s.items (W - reserve s) s.items.length 0 0).2.2.1 k (Nat.zero_le _)
      (by rw [hb]; exact hk)
  have hr : (scanLoop s.items (W - reserve s) s.items.length 0 0).2
      = ((totalWidth s.items : Nat) : Int) := by
    rw [scanLoop_rightmost, hb, List.take_length]
  cases ho : s.overflow with
  | nil =>
    simp only [pullBackLoop, List.length_nil, if_true]
    refine ⟨_, rfl, fun _ hres => FrameResized_stable W _ ?_ (fun _ => ⟨rfl, rfl⟩) ?_⟩
    · intro k hk
      rw [hres]
      exact hfit0 k hk
    · intro x rest h
      simp at h
  | cons x rest =>
    have hm : s.overflowMounted = true := hwf (by rw [ho]; simp)
    cases hq : pullBackLoop W s.overflowMounted s.overflowItemWidth (x :: rest) s.items
        s.items.length (scanLoop s.items (W - reserve s) s.items.length 0 0).2 (reserve s) with
    | none =>
      obtain ⟨_, _, _, h2⟩ := pullBackLoop_split W s.overflowItemWidth (x :: rest) s.items
        (scanLoop s.items (W - reserve s) s.items.length 0 0).2 (reserve s)
      rw [hm, h2] at hq
      simp at hq
    | some q =>
      obtain ⟨a, b⟩ := q
      obtain ⟨pulled, h1, h2⟩ := pullBackLoop_some _ _ _ _ _ _ _ _ _ hq
      have hstop : a.length ≤ s.items.length →
          (x.width : Int) + ((totalWidth s.items : Nat) : Int) > W - reserve s := by
        intro hlen
        have := pullBackLoop_none_pulled _ _ _ _ _ _ _ _ _ _ hq hlen
        rw [hr] at this
        exact this
      have hpulled : a.length ≤ s.items.length → a = s.items ∧ b = x :: rest := by
        intro hlen
        rw [h2] at hlen
        simp only [List.length_append] at hlen
        have hp : pulled = [] := List.length_eq_zero.mp (by omega)
        rw [hp] at h1 h2
        simp only [List.nil_append] at h1
        simp only [List.append_nil] at h2
        exact ⟨h2, h1.symm⟩
      by_cases hbl : b.length = 0
      · simp only [hbl, if_true]
        refine ⟨_, rfl, fun hlen _ => ?_⟩
        have := (hpulled hlen).2
        rw [this] at hbl
        simp at hbl
      · simp only [hbl, if_false]
        refine ⟨_, rfl, fun hlen hres => FrameResized_stable W _ ?_ ?_ ?_⟩
        · intro k hk
          rw [hres]
          simp only [(hpulled hlen).1] at hk ⊢
          exact hfit0 k hk
        · intro hbn
          simp only at hbn
          rw [hbn] at hbl
          simp at hbl
        · intro y rest1 hy
          rw [hres]
          simp only at hy
          rw [(hpulled hlen).2] at hy
          simp only [List.cons.injEq] at hy
          simp only [(hpulled hlen).1]
          rw [← hy.1]
          exact hstop hlen

/-- On the spill branch, a call that keeps the reserve leaves a layout that a
second call does not change. -/
theorem FrameResized_spill_settled (W : Int) (s : BookmarkBar)
    (hb : (scanLoop s.items (W - reserve s) s.items.length 0 0).1 ≠ s.items.length) :
    ∃ s1, FrameResized W s = some s1 ∧
      (reserve s1 = reserve s → FrameResized W s1 = some s1) := by
  obtain ⟨_, hle, hfit, hstop, _⟩ := scanLoop_spec s.items (W - reserve s) s.items.length 0 0
  have hlt : (scanLoop s.items (W - reserve s) s.items.length 0 0).1 < s.items.length := by
    omega
  have hgt := hstop (by omega)
  rw [frameRight_eq_totalWidth, totalWidth_take_succ _ _ hlt] at hgt
  have hdrop : s.items.drop (scanLoop s.items (W - reserve s) s.items.length 0 0).1
      = s.items.get ⟨_, hlt⟩ ::
        s.items.drop ((scanLoop s.items (W - reserve s) s.items.length 0 0).1 + 1) :=
    List.drop_eq_getElem_cons hlt
  have key : ∀ t : BookmarkBar,
      t.items = s.items.take (scanLoop s.items (W - reserve s) s.items.length 0 0).1 →
      t.overflow = s.items.drop (scanLoop s.items (W - reserve s) s.items.length 0 0).1
        ++ s.overflow →
      reserve t = reserve s → FrameResized W t = some t := by
    intro t hi ho hres
    apply FrameResized_stable
    · intro k hk
      rw [hi, List.length_take] at hk
      rw [hi, hres, frameRight_take _ (by omega)]
      exact hfit k (Nat.zero_le _) (by omega)
    · intro he
      rw [ho, hdrop] at he
      exact absurd he (List.cons_ne_nil _ _)
    · intro x rest hx
      rw [ho, hdrop] at hx
      simp only [List.cons_append, List.cons.injEq] at hx
      rw [hi, hres, ← hx.1]
      push_cast at hgt ⊢
      omega
  rw [FrameResized_spill W s hb]
  split
  · exact ⟨_, rfl, fun hres => key _ rfl rfl hres⟩
  · exact ⟨_, rfl, fun hres => key _ rfl rfl hres⟩

/-- C6 (amended). Layout idempotence when the first call settles the layout: on
a bar whose overflow menu is mounted when it holds an entry, `FrameResized(W)`
returns a state `s1`, and whenever that call pulled no entry back into the
inline row and left the reserve for the overflow menu (32 when it is mounted
with more than one entry, 0 otherwise) at the value it computed with, a second
`FrameResized(W)` returns `s1` unchanged: no entry moves and the mounted status
stays. -/
theorem C6_FrameResized_idempotent_when_settled (W : Int) (s : BookmarkBar)
    (hwf : s.overflow ≠ [] → s.overflowMounted = true) :
    ∃ s1, FrameResized W s = some s1 ∧
      (s1.items.length ≤ s.items.length → reserve s1 = reserve s →
        FrameResized W s1 = some s1) := by
  by_cases hb : (scanLoop s.items (W - reserve s) s.items.length 0 0).1 = s.items.length
  · exact FrameResized_pull_settled W s hwf hb
  · obtain ⟨s1, h1, h2⟩ := FrameResized_spill_settled W s hb
    exact ⟨s1, h1, fun _ hres => h2 hres⟩


/-- C6 (amended) at three inline and two overflow entries of width 50 and
`W = 110`: the first call spills two entries with the reserve of 32 in force
before and after, and the second call changes nothing. -/
theorem C6_FrameResized_idempotent_when_settled_witness :
    ∃ s1, FrameResized 110 barFive = some s1 ∧
      s1.items.length < barFive.items.length ∧ reserve s1 = reserve barFive ∧
      FrameResized 110 s1 = some s1 := by
  obtain ⟨s1, h1, h2⟩ := C6_FrameResized_idempotent_when_settled 110 barFive (fun _ => rfl)
  have hc : FrameResized 110 barFive = some barFiveAfter := rfl
  rw [hc] at h1
  simp only [Option.some.injEq] at h1
  subst h1
  exact ⟨_, hc, by decide, by decide, h2 (by decide) (by decide)⟩

/-- C6 fails as stated.  With four inline entries of width 50 and `W = 110`, the
first `FrameResized(110)` spills two entries and mounts the overflow menu, and
the second one spills a third entry, because the reserve of 32 applies only
once the overflow menu is mounted with more than one entry.  With one inline
and two overflow entries of width 50 and `W = 150`, the first
`FrameResized(150)` pulls one entry back and the second one pulls the other,
because after a pull `rightmost` is the right edge of the overflow item. -/
theorem C6_second_call_moves_entries :
    (FrameResized 110 barFour).map
        (fun s => (s.items.map (fun it => it.addr), s.overflow.map (fun it => it.addr),
          s.overflowMounted))
      = some ([1, 2], [3, 4], true) ∧
    ((FrameResized 110 barFour).bind (FrameResized 110)).map
        (fun s => (s.items.map (fun it => it.addr), s.overflow.map (fun it => it.addr),
          s.overflowMounted))
      = some ([1], [2, 3, 4], true) ∧
    (FrameResized 150 barOneTwo).map
        (fun s => (s.items.map (fun it => it.addr), s.overflow.map (fun it => it.addr),
          s.overflowMounted))
      = some ([1, 2], [3], true) ∧
    ((FrameResized 150 barOneTwo).bind (FrameResized 150)).map
        (fun s => (s.items.map (fun it => it.addr), s.overflow.map (fun it => it.addr),
          s.overflowMounted))
      = some ([1, 2, 3], [], false) := by
  refine ⟨?_, ?_, ?_, ?_⟩ <;> decide

theorem frameRight_append_left (xs ys : List IconMenuItem) {k : Nat} (h : k < xs.length) :
    frameRight (xs ++ ys) k = frameRight xs k := by
  unfold frameRight
  rw [List.take_append_of_le_length (by omega)]

theorem frameRight_le_totalWidth (xs : List IconMenuItem) (k : Nat) :
    frameRight xs k ≤ ((totalWidth xs : Nat) : Int) := by
  rw [frameRight_eq_totalWidth]
  exact_mod_cast totalWidth_take_le xs (k + 1)

/-- Growing the bar pulls every overflow entry back when a single entry is in
the overflow menu, or when the bar has room for all entries, the overflow item
and the reserve. -/
theorem FrameResized_pull_all (W : Int) (t : BookmarkBar)
    (hm : t.overflowMounted = true)
    (hfit : ∀ k, k < (t.items ++ t.overflow).length → frameRight (t.items ++ t.overflow) k ≤ W)
    (hcase : t.overflow.length = 1 ∨
      ((totalWidth (t.items ++ t.overflow) + t.overflowItemWidth : Nat) : Int) + 32 ≤ W) :
    FrameResized W t =
      some { t with items := t.items ++ t.overflow, overflow := [],
                    overflowMounted := false, fOverflowMenuAdded := false } := by
  have hres : reserve t = 0 ∨ reserve t = 32 := by
    unfold reserve
    split <;> simp
  have hres1 : t.overflow.length = 1 → reserve t = 0 := by
    intro h
    simp [reserve, h]
  have hb : (scanLoop t.items (W - reserve t) t.items.length 0 0).1 = t.items.length := by
    apply scanLoop_unique _ _ _ _ (le_refl _) _ (fun h => absurd h (lt_irrefl _))
    intro k hk
    have h1 := hfit k (by rw [List.length_append]; omega)
    rw [frameRight_append_left _ _ hk] at h1
    rcases hcase with h | h
    · rw [hres1 h]
      simpa using h1
    · have h2 := frameRight_le_totalWidth t.items k
      rw [totalWidth_append] at h
      push_cast at h
      omega
  rw [FrameResized_pull W t hb, scanLoop_rightmost, hb, List.take_length, hm]
  rcases hcase with h | h
  · obtain ⟨x, hx⟩ := List.length_eq_one.mp h
    have hlast := hfit (t.items ++ t.overflow).length.pred (by
      rw [hx]; simp)
    rw [frameRight_eq_totalWidth] at hlast
    have hsucc : (t.items ++ t.overflow).length.pred + 1 = (t.items ++ t.overflow).length := by
      rw [hx]; simp
    have hx1 : totalWidth [x] = x.width := by simp [totalWidth]
    rw [hsucc, List.take_length, hx, totalWidth_append, hx1] at hlast
    have hfitx : ¬ ((x.width : Int) + ((totalWidth t.items : Nat) : Int) > W - reserve t) := by
      rw [hres1 h]
      push_cast at hlast
      omega
    rw [hx, pullBackLoop_step W _ x [] t.items _ _ hfitx]
    simp [pullBackLoop]
  · rw [pullBackLoop_all W _ t.overflow t.items _ _ (by omega) (by omega)
      (by rw [totalWidth_append] at h; exact h)]
    simp


/-- C8 (amended). Overflow round-trip: start from a bar whose entries all fit
inline at width `W`, with the overflow menu empty and not mounted, and let a
width `W2` force some entry into the overflow menu.  `FrameResized(W2)` mounts
the overflow menu with the entries from the first one that does not fit.  A
following `FrameResized(W)` brings every entry back, in its original
position, and unmounts the overflow menu, provided either only the last entry
was forced out, or `W` also has room for the overflow item and the reserve of
32 behind all the entries. -/
theorem C8_round_trip_restores (W W2 : Int) (s : BookmarkBar)
    (hm : s.overflowMounted = false) (ho : s.overflow = [])
    (hfitW : ∀ k, k < s.items.length → frameRight s.items k ≤ W)
    (hspill : ∃ k, k < s.items.length ∧ frameRight s.items k > W2)
    (hcase : (∀ k, k < s.items.length - 1 → frameRight s.items k ≤ W2) ∨
      ((totalWidth s.items + s.overflowItemWidth : Nat) : Int) + 32 ≤ W) :
    ∃ s1 s2, FrameResized W2 s = some s1 ∧ s1.overflow ≠ [] ∧
      s1.overflowMounted = true ∧
      FrameResized W s1 = some s2 ∧
      s2.items = s.items ∧ s2.overflow = [] ∧ s2.overflowMounted = false := by
  have hres : reserve s = 0 := by simp [reserve, hm]
  obtain ⟨_, hle, hfit, hstop, _⟩ := scanLoop_spec s.items (W2 - reserve s) s.items.length 0 0
  have hb : (scanLoop s.items (W2 - reserve s) s.items.length 0 0).1 ≠ s.items.length := by
    intro e
    obtain ⟨k, hk, hgt⟩ := hspill
    have := hfit k (Nat.zero_le _) (by rw [e]; exact hk)
    rw [hres] at this
    omega
  have hlt : (scanLoop s.items (W2 - reserve s) s.items.length 0 0).1 < s.items.length := by
    omega
  have hgt := hstop (by omega)
  rw [hres] at hgt
  have hfull : s.items.take (scanLoop s.items (W2 - reserve s) s.items.length 0 0).1 ++
      (s.items.drop (scanLoop s.items (W2 - reserve s) s.items.length 0 0).1 ++ s.overflow)
      = s.items := by
    rw [ho, List.append_nil, List.take_append_drop]
  have hpull := FrameResized_pull_all W
    { s with
      items := s.items.take (scanLoop s.items (W2 - reserve s) s.items.length 0 0).1,
      overflow :=
        s.items.drop (scanLoop s.items (W2 - reserve s) s.items.length 0 0).1 ++ s.overflow,
      overflowMounted := true, fOverflowMenuAdded := true } rfl
    (by
      simp only [hfull]
      exact hfitW)
    (by
      simp only [hfull]
      rcases hcase with h | h
      · left
        rw [ho, List.append_nil, List.length_drop]
        by_contra hne
        have := h (scanLoop s.items (W2 - reserve s) s.items.length 0 0).1 (by omega)
        omega
      · right
        exact h)
  rw [FrameResized_spill W2 s hb, if_pos hm]
  refine ⟨_, _, rfl, ?_, rfl, hpull, ?_, rfl, rfl⟩
  · simp only [ne_eq, List.append_eq_nil, List.drop_eq_nil_iff, not_and]
    intro h
    omega
  · simp only [hfull]

/-- C8 (amended) at three entries of widths 50, 50 and 50: width 120 forces the
last one out, width 150 brings it back. -/
theorem C8_round_trip_restores_witness :
    ∃ s1 s2, FrameResized 120 (mkBar [mkItem 1 50, mkItem 2 50, mkItem 3 50] [] false 150)
        = some s1 ∧ s1.overflow ≠ [] ∧ s1.overflowMounted = true ∧
      FrameResized 150 s1 = some s2 ∧
      s2.items = (mkBar [mkItem 1 50, mkItem 2 50, mkItem 3 50] [] false 150).items ∧
      s2.overflow = [] ∧ s2.overflowMounted = false :=
  C8_round_trip_restores 150 120 (mkBar [mkItem 1 50, mkItem 2 50, mkItem 3 50] [] false 150)
    rfl rfl (by decide) ⟨2, by decide⟩ (Or.inl (by decide))

/-- C8 fails as stated: entries of widths 50, 90 and 10 all fit inline at width
150; `FrameResized(60)` forces the second and the third into the overflow
menu; the following `FrameResized(150)` leaves both there, because with two
entries in the mounted overflow menu the usable width is 150 - 32 = 118 and
the second entry needs 140. -/
theorem C8_round_trip_keeps_entries_in_overflow :
    (FrameResized 150 barThree).map
        (fun s => (s.items.map (fun it => it.addr), s.overflow.map (fun it => it.addr),
          s.overflowMounted))
      = some ([1, 2, 3], [], false) ∧
    (FrameResized 60 barThree).map
        (fun s => (s.items.map (fun it => it.addr), s.overflow.map (fun it => it.addr),
          s.overflowMounted))
      = some ([1], [2, 3], true) ∧
    ((FrameResized 60 barThree).bind (FrameResized 150)).map
        (fun s => (s.items.map (fun it => it.addr), s.overflow.map (fun it => it.addr),
          s.overflowMounted))
      = some ([1], [2, 3], true) := by
  refine ⟨?_, ?_, ?_⟩ <;> decide


/-- With an empty overflow menu and an inline row that fits, `FrameResized`
unmounts the overflow menu and changes nothing else. -/
theorem FrameResized_unmounts_empty (W : Int) (t : BookmarkBar) (ho : t.overflow = [])
    (hfit : ∀ k, k < t.items.length → frameRight t.items k ≤ W) :
    FrameResized W t =
      some { t with overflowMounted := false, fOverflowMenuAdded := false } := by
  have hres : reserve t = 0 := by simp [reserve, ho]
  have hb : (scanLoop t.items (W - reserve t) t.items.length 0 0).1 = t.items.length := by
    apply scanLoop_unique _ _ _ _ (le_refl _) _ (fun h => absurd h (lt_irrefl _))
    intro k hk
    rw [hres]
    simpa using hfit k hk
  rw [FrameResized_pull W t hb, ho]
  simp only [pullBackLoop, List.length_nil, if_true]

theorem removeItemPtr_absent (a : Nat) (l : List IconMenuItem)
    (h : ∀ it ∈ l, it.addr ≠ a) : removeItemPtr (some a) l = l := by
  unfold removeItemPtr
  apply List.eraseP_of_forall_not
  intro it hit
  simpa using h it hit

theorem removeItemPtr_singleton (e : IconMenuItem) :
    removeItemPtr (some e.addr) [e] = [] := by
  simp [removeItemPtr]

/-- C9. Overflow indicator lifecycle: on a bar in which the overflow menu is
mounted (it is an item of the bar and `fOverflowMenuAdded` says so), whether it
holds one entry, several or none,
`FrameResized(W)` returns a state in which the overflow menu is mounted exactly
when it holds an entry, and `fOverflowMenuAdded` equals the mounted status.
The same holds after a `B_ENTRY_REMOVED` event for the node of the only
overflow entry; and when the inline row fits the bounds width, the
recomputation run by that event leaves the overflow menu empty and unmounted,
with the inline row as it was. -/
theorem C9_overflow_lifecycle (W : Int) (s : BookmarkBar)
    (hm : s.overflowMounted = true) (hf : s.fOverflowMenuAdded = true) :
    (∃ s1, FrameResized W s = some s1 ∧
      (s1.overflowMounted = true ↔ s1.overflow ≠ []) ∧
      s1.fOverflowMenuAdded = s1.overflowMounted) ∧
    (∀ (pf : Platform) (n : ino_t) (e : IconMenuItem),
      s.overflow = [e] → s.fItemsMap n = some (some e.addr) →
      ∃ s2, MessageReceived pf (.nodeMonitor (.entryRemoved n)) s = some s2 ∧
        (s2.overflowMounted = true ↔ s2.overflow ≠ []) ∧
        s2.fOverflowMenuAdded = s2.overflowMounted ∧
        ((∀ k, k < s.items.length → frameRight s.items k ≤ s.boundsWidth) →
          (∀ it ∈ s.items, it.addr ≠ e.addr) →
          s2.overflow = [] ∧ s2.overflowMounted = false ∧
            s2.fOverflowMenuAdded = false ∧ s2.items = s.items)) := by
  constructor
  · obtain ⟨s1, e1, _, _, _, _, _, _, _, _, e2, e3⟩ := FrameResized_total W s (fun _ => hm)
    exact ⟨s1, e1, e2, e3 (by rw [hm, hf])⟩
  · intro pf n e he hmap
    obtain ⟨s2, e1, _, _, e4, e5⟩ := entryRemoved_total n s (fun _ => hm)
    refine ⟨s2, e1, e4, e5 (by rw [hm, hf]), fun hfit hnot => ?_⟩
    have hidx := ItemsMap_index_present _ _ _ hmap
    have h2 : entryRemoved n s =
        some { s with fItemsMap := s.fItemsMap.erase n, overflow := [],
                      overflowMounted := false, fOverflowMenuAdded := false } := by
      unfold entryRemoved
      simp only [hidx, he, removeItemPtr_singleton, removeItemPtr_absent _ _ hnot]
      exact FrameResized_unmounts_empty _ _ rfl hfit
    rw [h2] at e1
    simp only [Option.some.injEq] at e1
    subst e1
    exact ⟨rfl, rfl, rfl, rfl⟩

/-- C9 at a bar with one inline and one overflow entry that fits after the
removal. -/
theorem C9_overflow_lifecycle_witness :
    (∃ s1, FrameResized 60 barOneOne = some s1 ∧
      (s1.overflowMounted = true ↔ s1.overflow ≠ []) ∧
      s1.fOverflowMenuAdded = s1.overflowMounted) ∧
    (∀ (pf : Platform) (n : ino_t) (e : IconMenuItem),
      barOneOne.overflow = [e] → barOneOne.fItemsMap n = some (some e.addr) →
      ∃ s2, MessageReceived pf (.nodeMonitor (.entryRemoved n)) barOneOne = some s2 ∧
        (s2.overflowMounted = true ↔ s2.overflow ≠ []) ∧
        s2.fOverflowMenuAdded = s2.overflowMounted ∧
        ((∀ k, k < barOneOne.items.length →
            frameRight barOneOne.items k ≤ barOneOne.boundsWidth) →
          (∀ it ∈ barOneOne.items, it.addr ≠ e.addr) →
          s2.overflow = [] ∧ s2.overflowMounted = false ∧
            s2.fOverflowMenuAdded = false ∧ s2.items = barOneOne.items)) :=
  C9_overflow_lifecycle 60 barOneOne rfl rfl

/-- C10 (amended). Delete: with a selection that designates the inline bookmark
entry `e` and a filesystem delete that succeeds, the `kDeleteMsg` action
removes `e` from the inline row at once and shows no alert; it leaves the
overflow menu, the mounted status and `fItemsMap` as they were, so the index
keeps its entry for the node of `e`; every entry still displayed was
displayed before.  The index entry is erased by the `B_ENTRY_REMOVED` event
for that node: after it the node has no index entry and nothing that the
delete took off display is displayed again. -/
theorem C10_delete_removes_display_keeps_index (pf : Platform) (s : BookmarkBar)
    (k : Nat) (e : IconMenuItem)
    (hsel : s.fSelectedItemIndex = (k : Int)) (he : s.items[k]? = some e)
    (hok : pf.removeEntry e.message.refs = true) :
    ∃ s1, MessageReceived pf .deleteMsg s = some s1 ∧
      s1.items = s.items.eraseIdx k ∧ s1.overflow = s.overflow ∧
      s1.fItemsMap = s.fItemsMap ∧ s1.overflowMounted = s.overflowMounted ∧
      s1.alerts = s.alerts ∧
      (∀ it, it ∈ displayed s1 → it ∈ displayed s) ∧
      (∀ n : ino_t, s.fItemsMap n = some (some e.addr) →
        (s.overflow ≠ [] → s.overflowMounted = true) →
        ∃ s2, MessageReceived pf (.nodeMonitor (.entryRemoved n)) s1 = some s2 ∧
          s2.fItemsMap n = none ∧ (∀ it, it ∈ displayed s2 → it ∈ displayed s1)) := by
  have hk : k < s.items.length := by
    rcases Nat.lt_or_ge k s.items.length with h | h
    · exact h
    · rw [List.getElem?_eq_none h] at he
      simp at he
  have hdel : deleteSelected pf s = some { s with items := s.items.eraseIdx k } := by
    unfold deleteSelected
    have hc : 0 ≤ s.fSelectedItemIndex ∧ s.fSelectedItemIndex < (s.CountItems : Int) := by
      rw [hsel]
      unfold CountItems
      constructor
      · omega
      · push_cast
        split <;> omega
    rw [if_pos hc, hsel]
    simp only [Int.toNat_ofNat, he]
    rw [if_neg (by rw [hok]; decide)]
  refine ⟨_, hdel, rfl, rfl, rfl, rfl, rfl, ?_, ?_⟩
  · intro it hit
    simp only [displayed, List.mem_append] at hit ⊢
    rcases hit with h | h
    · exact Or.inl (List.mem_of_mem_eraseIdx h)
    · exact Or.inr h
  · intro n _ hwf
    obtain ⟨s2, e1, e2, e3, _⟩ := entryRemoved_total n
      { s with items := s.items.eraseIdx k } hwf
    refine ⟨s2, e1, ?_, ?_⟩
    · rw [e2]
      simp [ItemsMap.erase]
    · intro it hit
      simp only [displayed] at hit ⊢
      rw [e3] at hit
      simp only [List.mem_append] at hit ⊢
      rcases hit with h | h
      · left
        revert h
        unfold removeItemPtr
        split
        · exact id
        · exact List.mem_of_mem_eraseP
      · right
        revert h
        unfold removeItemPtr
        split
        · exact id
        · exact List.mem_of_mem_eraseP

/-- C10 (amended) at a bar whose only entry is selected. -/
theorem C10_delete_removes_display_keeps_index_witness :
    ∃ s1, MessageReceived pf0 .deleteMsg barSelected = some s1 ∧
      s1.items = barSelected.items.eraseIdx 0 ∧ s1.overflow = barSelected.overflow ∧
      s1.fItemsMap = barSelected.fItemsMap ∧
      s1.overflowMounted = barSelected.overflowMounted ∧
      s1.alerts = barSelected.alerts ∧
      (∀ it, it ∈ displayed s1 → it ∈ displayed barSelected) ∧
      (∀ n : ino_t, barSelected.fItemsMap n = some (some (mkItem 1 50).addr) →
        (barSelected.overflow ≠ [] → barSelected.overflowMounted = true) →
        ∃ s2, MessageReceived pf0 (.nodeMonitor (.entryRemoved n)) s1 = some s2 ∧
          s2.fItemsMap n = none ∧ (∀ it, it ∈ displayed s2 → it ∈ displayed s1)) :=
  C10_delete_removes_display_keeps_index pf0 barSelected 0 (mkItem 1 50) rfl rfl rfl

/-- C10 fails as stated: on a bar whose only entry (address 1, node 7) is
selected, a `kDeleteMsg` action with a successful filesystem delete empties the
display, but `fItemsMap` still maps node 7 to the entry at address 1, which is
no longer displayed. -/
theorem C10_delete_leaves_index_entry :
    (MessageReceived pf0 .deleteMsg barSelected).map
        (fun s => (s.items, s.overflow, s.fItemsMap 7))
      = some ([], [], some (some 1)) := by
  decide

end BookmarkBar

end WebPositive

/-! ## Loader, attach, rename, pointer press -/

namespace WebPositive

namespace BookmarkBar

/-- One turn of the loader loop, by the pair the entry contributes. -/
theorem loadLoop_cons (e : DirEntry) (rest : List DirEntry) (sent : List Message)
    (batch : List (ino_t × entry_ref)) (n : Nat) :
    loadLoop (e :: rest) sent batch n =
      match loadablePair e with
      | none => loadLoop rest sent batch n
      | some p =>
        if n + 1 ≥ BATCH_SIZE then
          loadLoop rest (sent ++ [Message.addBookmarkItems (batch ++ [p])]) [] 0
        else loadLoop rest sent (batch ++ [p]) (n + 1) := by
  obtain ⟨f, d, l, r, nd⟩ := e
  cases f <;> cases d <;> cases l <;> cases r <;> cases nd <;>
    simp [loadLoop, loadablePair]

theorem flatten_length_of_full (B : List (List (ino_t × entry_ref)))
    (h : ∀ b ∈ B, b.length = 10) : B.flatten.length = 10 * B.length := by
  induction B with
  | nil => rfl
  | cons b rest ih =>
    rw [List.flatten_cons, List.length_append, h b (List.mem_cons_self _ _),
      ih (fun c hc => h c (List.mem_cons_of_mem _ hc)), List.length_cons]
    omega

/-- The loader loop sends full batches only and keeps fewer than ten pairs; the
batches sent and the pairs kept are, in order, the pairs it started with
followed by the pairs of the entries. -/
theorem loadLoop_spec (entries : List DirEntry) :
    ∀ (sent : List Message) (batch : List (ino_t × entry_ref)), batch.length < 10 →
      ∃ (B : List (List (ino_t × entry_ref))) (fin : List (ino_t × entry_ref)),
        loadLoop entries sent batch batch.length
          = (sent ++ B.map Message.addBookmarkItems, fin, fin.length) ∧
        fin.length < 10 ∧ B.flatten ++ fin = batch ++ loadable entries ∧
        ∀ b ∈ B, b.length = 10 := by
  induction entries with
  | nil =>
    intro sent batch hb
    exact ⟨[], batch, by simp [loadLoop], hb, by simp [loadable], by simp⟩
  | cons e rest ih =>
    intro sent batch hb
    rw [loadLoop_cons]
    cases hp : loadablePair e with
    | none =>
      obtain ⟨B, fin, h1, h2, h3, h4⟩ := ih sent batch hb
      refine ⟨B, fin, h1, h2, ?_, h4⟩
      rw [h3]
      simp [loadable, List.filterMap_cons, hp]
    | some p =>
      have hq : loadable (e :: rest) = p :: loadable rest := by
        simp [loadable, List.filterMap_cons, hp]
      by_cases hfull : batch.length + 1 ≥ BATCH_SIZE
      · simp only [hfull, if_true]
        obtain ⟨B, fin, h1, h2, h3, h4⟩ :=
          ih (sent ++ [Message.addBookmarkItems (batch ++ [p])]) [] (by simp)
        refine ⟨(batch ++ [p]) :: B, fin, ?_, h2, ?_, ?_⟩
        · rw [List.length_nil] at h1
          rw [h1]
          simp
        · rw [List.flatten_cons, List.append_assoc, h3, hq]
          simp
        · intro b hb1
          rcases List.mem_cons.mp hb1 with h | h
          · rw [h, List.length_append, List.length_singleton]
            unfold BATCH_SIZE at hfull
            omega
          · exact h4 b h
      · simp only [hfull, if_false]
        have hlen : (batch ++ [p]).length = batch.length + 1 := by simp
        have hlt : (batch ++ [p]).length < 10 := by
          unfold BATCH_SIZE at hfull
          omega
        obtain ⟨B, fin, h1, h2, h3, h4⟩ := ih sent (batch ++ [p]) hlt
        rw [hlen] at h1
        refine ⟨B, fin, h1, h2, ?_, h4⟩
        rw [h3, hq]
        simp

/-- C12. Loader batching: for a directory that opens, with `Q` the pairs of the
entries that are a file, directory or symlink and whose reference and node
resolve, the loader sends the batches `B` as `MSG_ADD_BOOKMARK_ITEMS`
messages, in order, and then one `MSG_BOOKMARKS_LOADED`; there are
`ceil(|Q| / 10)` batches, each holds between 1 and 10 pairs, every batch
before the last holds exactly 10, and the batches joined in order are `Q`. -/
theorem C12_loader_batches (bar : BookmarkBar) (entries : List DirEntry) :
    ∃ B : List (List (ino_t × entry_ref)),
      (_LoadBookmarksThreadEntry (some entries) bar).sent
        = B.map Message.addBookmarkItems ++ [Message.bookmarksLoaded] ∧
      B.flatten = loadable entries ∧
      B.length = ((loadable entries).length + 9) / 10 ∧
      (∀ b ∈ B, 1 ≤ b.length ∧ b.length ≤ 10) ∧
      (∀ b ∈ B.dropLast, b.length = 10) := by
  obtain ⟨B, fin, h1, h2, h3, h4⟩ := loadLoop_spec entries [] [] (by simp)
  simp only [List.length_nil, List.nil_append] at h1 h3
  have hlen : (loadable entries).length = 10 * B.length + fin.length := by
    rw [← h3, List.length_append, flatten_length_of_full B h4]
  by_cases hf : fin.length > 0
  · refine ⟨B ++ [fin], ?_, ?_, ?_, ?_, ?_⟩
    · simp [_LoadBookmarksThreadEntry, h1, hf]
    · rw [List.flatten_append, h3.symm]
      simp
    · rw [hlen, List.length_append, List.length_singleton]
      omega
    · intro b hb
      rcases List.mem_append.mp hb with h | h
      · rw [h4 b h]
        omega
      · rw [List.mem_singleton.mp h]
        omega
    · intro b hb
      rw [List.dropLast_concat] at hb
      exact h4 b hb
  · have hnil : fin = [] := List.length_eq_zero.mp (by omega)
    refine ⟨B, ?_, ?_, ?_, ?_, ?_⟩
    · simp [_LoadBookmarksThreadEntry, h1, hnil]
    · rw [← h3, hnil, List.append_nil]
    · rw [hlen, hnil, List.length_nil]
      omega
    · intro b hb
      rw [h4 b hb]
      omega
    · intro b hb
      exact h4 b (List.mem_of_mem_dropLast hb)

/-- C11 (amended). Loader failure: when the watched directory cannot be opened,
`_LoadBookmarksThreadEntry` sends no message at all, neither a
`MSG_ADD_BOOKMARK_ITEMS` batch nor `MSG_BOOKMARKS_LOADED`; it resets
`fLoadThreadId` to `B_NO_THREAD`, changes nothing else in the bar and returns
`B_ERROR`. -/
theorem C11_loader_failure_is_silent (bar : BookmarkBar) :
    (_LoadBookmarksThreadEntry none bar).sent = [] ∧
    (_LoadBookmarksThreadEntry none bar).bar = { bar with fLoadThreadId := B_NO_THREAD } ∧
    (_LoadBookmarksThreadEntry none bar).bar.fLoadThreadId = B_NO_THREAD ∧
    (_LoadBookmarksThreadEntry none bar).status = B_ERROR :=
  ⟨rfl, rfl, rfl, rfl⟩

/-- C11 fails as stated: for a bar whose loader thread 5 finds the directory
unopenable, the messages sent are not the single `MSG_BOOKMARKS_LOADED`; none
is sent. -/
theorem C11_no_completion_signal_on_failure :
    (_LoadBookmarksThreadEntry none barLoading).sent ≠ [Message.bookmarksLoaded] ∧
    (_LoadBookmarksThreadEntry none barLoading).sent.length = 0 := by
  constructor
  · intro h
    have := congrArg List.length h
    simp [_LoadBookmarksThreadEntry] at this
  · rfl

/-- C13. While the loader thread 5 is active, `AttachedToWindow` with
`spawn_thread` returning 6 creates the loader thread 6 and stores 6 in
`fLoadThreadId`. -/
theorem C13_attach_spawns_second_loader :
    barLoading.fLoadThreadId = 5 ∧ barLoading.fLoadThreadId ≠ B_NO_THREAD ∧
    (AttachedToWindow 6 barLoading).1.fLoadThreadId = 6 ∧
    (AttachedToWindow 6 barLoading).2 = [6] := by
  decide

/-- C14. With a filesystem rename that fails, the `kRenameBookmarkMsg` action for
the entry labelled "old" and the text "new" leaves the entry labelled "new"
and shows no alert. -/
theorem C14_failed_rename_changes_label :
    pfRenameFails.renameEntry (ref0 "old") "new" = false ∧
    (MessageReceived pfRenameFails (.renameBookmarkMsg "new" (some 1)) barOld).map
        (fun s => (s.items.map (fun it => (it.label, it.message.refs.name)), s.alerts))
      = some ([("new", "old")], []) := by
  decide

/-- C15. On a bar with one inline entry (frame from 0 to 50) and the overflow
menu mounted after it (frame from 50 to 70), a secondary-button press at
x = 55 makes the loop of `MouseDown` stop at index 1, which is the overflow
menu and not one of the inline entries (there is one, at index 0); the call
then reads `Message()` of that item, which is `NULL`. -/
theorem C15_press_on_overflow_item_selects_it :
    barOneOne.items.length = 1 ∧ barOneOne.overflowMounted = true ∧
    hitLoop { barOneOne with fSelectedItemIndex := -1 } 20 ⟨55, 5⟩ barOneOne.CountItems 0
      = some 1 ∧
    (MouseDown 20 (some B_SECONDARY_MOUSE_BUTTON) ⟨55, 5⟩ barOneOne).isNone = true := by
  decide

/-- C16. Spill cut point: let `usable` be `W - 32` when the overflow menu is
mounted and holds more than one entry, and `W` otherwise.  When the inline
entry at index `i` has its right edge beyond `usable` and no entry before it
has, `FrameResized(W)` returns a state whose inline row is the old entries
before index `i`, in order, whose overflow menu holds the old inline entries
from index `i` on, in order, followed by its previous contents, and whose
overflow menu is mounted. -/
theorem C16_spill_cut_point (W : Int) (s : BookmarkBar) (i : Nat)
    (hi : i < s.items.length)
    (hgt : frameRight s.items i >
      (if s.overflowMounted = true ∧ s.overflow.length > 1 then W - 32 else W))
    (hmin : ∀ k, k < i → frameRight s.items k ≤
      (if s.overflowMounted = true ∧ s.overflow.length > 1 then W - 32 else W)) :
    ∃ s1, FrameResized W s = some s1 ∧
      s1.items = s.items.take i ∧
      s1.overflow = s.items.drop i ++ s.overflow ∧
      s1.overflowMounted = true := by
  have hu : (if s.overflowMounted = true ∧ s.overflow.length > 1 then W - 32 else W)
      = W - reserve s := by
    unfold reserve
    split <;> simp
  rw [hu] at hgt hmin
  have hscan : (scanLoop s.items (W - reserve s) s.items.length 0 0).1 = i :=
    scanLoop_unique s.items (W - reserve s) s.items.length i (le_of_lt hi) hmin (fun _ => hgt)
  have hb : (scanLoop s.items (W - reserve s) s.items.length 0 0).1 ≠ s.items.length := by
    rw [hscan]
    omega
  rw [FrameResized_spill W s hb, hscan]
  by_cases hm : s.overflowMounted = false
  · rw [if_pos hm]
    exact ⟨_, rfl, rfl, rfl, rfl⟩
  · rw [if_neg hm]
    exact ⟨_, rfl, rfl, rfl, by simpa using hm⟩

/-- C16 at four inline entries of width 50 and `W = 110`: the cut is at index 2. -/
theorem C16_spill_cut_point_witness :
    ∃ s1, FrameResized 110 barFour = some s1 ∧
      s1.items = barFour.items.take 2 ∧
      s1.overflow = barFour.items.drop 2 ++ barFour.overflow ∧
      s1.overflowMounted = true :=
  C16_spill_cut_point 110 barFour 2 (by decide) (by decide) (by decide)

end BookmarkBar

namespace BrowsingHistoryItem

/-- C17. For the history item with URL "b" visited at time 1 and the item with
URL "a" visited at time 2, `operator<` holds in both directions: the first is
smaller by its date-time and the second is smaller by its URL. -/
theorem C17_operator_lt_holds_both_ways :
    lt histA histB = true ∧ lt histB histA = true := by
  simp [lt, histA, histB]
  decide

end BrowsingHistoryItem

end WebPositive
